import Mathlib

/-!
Verification development for the PyTextCanvas addressing and mutation core
(`src/pytextcanvas/__init__.py`).  The Python `Canvas` class is shallowly
embedded: the backing 2D character store `_chars` becomes a function
`Nat → Nat → Option PyVal` (the source stores arbitrary Python objects in
cells via the unvalidated slice-assignment path, so cells hold `PyVal`,
not just single characters), the string cache becomes the pair
`strCache`/`strDirty`, and every fallible operation returns its resulting
state together with an `Except PyErr` value, mirroring Python's exception
propagation (a raised exception leaves whatever partial mutation already
happened visible in the returned state).
-/

deriving instance DecidableEq for Except

namespace PyTextCanvas

/-- Abstract error kinds for the `PyTextCanvasException`s (and the two
built-in Python exceptions) the embedded operations can raise.  The source
distinguishes errors only by message text; we name the raise sites. -/
inductive PyErr where
  /-- the x or y of a tuple key is outside `[-dim, dim)` -/
  | outOfRange : PyErr
  /-- a key was not a tuple or slice (the final `else` branch of
  `__getitem__` / `__setitem__` / `__delitem__`) -/
  | keyTypeError : PyErr
  /-- `value must have a length of 1, set to None or use del ...` -/
  | invalidValueEmpty : PyErr
  /-- `value must have a length of 1` (multi-character value) -/
  | invalidValue : PyErr
  /-- `width`/`height` argument not 1 or greater at construction -/
  | invalidArgument : PyErr
  /-- Python `ValueError` from `range(a, b, 0)` (zero slice step) -/
  | valueErrorZeroStep : PyErr
  /-- Python `IndexError` from a direct `self._chars[ix][iy]` access -/
  | indexError : PyErr
  /-- Python `TypeError` from `''.join(row)` on a non-string cell -/
  | typeError : PyErr
  /-- Python `ZeroDivisionError` from `(x2 - x1) / float(0)` in the slice
  branch of `__getitem__` -/
  | zeroDivision : PyErr
deriving DecidableEq, Repr

/-- Python values that can end up stored in a canvas cell or passed as the
value of an assignment: strings and ints suffice for this development
(Python `None` is modelled by `Option.none` at the use sites). -/
inductive PyVal where
  | pstr : List Char → PyVal
  | pint : Int → PyVal
deriving DecidableEq, Repr

/-- Python `str()` applied to a `PyVal` (used by `__setitem__`'s
`value = str(value)` and by `fill`'s `char = str(char)`). -/
def pyStrOf : PyVal → List Char
  | .pstr s => s
  | .pint n => (toString n).toList

/-- State of a `Canvas` object: immutable `_width`/`_height`, the cell
store `_chars` (source: a width-list of height-lists, indexed
`_chars[x][y]`; embedded as a total function on normalized coordinates),
and the string cache `_strCache`/`_strDirty`. -/
structure CanvasState where
  width : Nat
  height : Nat
  chars : Nat → Nat → Option PyVal
  strCache : Option (List Char)
  strDirty : Bool

/-- Pointwise update of the cell store, the effect of the source's
`self._chars[x][y] = value` on normalized coordinates. -/
def update2 (f : Nat → Nat → Option PyVal) (x y : Nat) (v : Option PyVal) :
    Nat → Nat → Option PyVal :=
  fun a b => if a = x ∧ b = y then v else f a b

/-- State of a canvas as produced by the explicit-size branch of
`Canvas.__init__` after validation: all cells `None` (transparent),
cache empty, dirty flag set. -/
def initCanvas (w h : Nat) : CanvasState :=
  { width := w, height := h, chars := fun _ _ => none,
    strCache := none, strDirty := true }

/-- Embedding of the explicit-size branch of `Canvas.__init__`: width and
height must each be an int that is 1 or greater. -/
def canvasFromSize (w h : Int) : Except PyErr CanvasState :=
  if w < 1 then .error .invalidArgument
  else if h < 1 then .error .invalidArgument
  else .ok (initCanvas w.toNat h.toNat)

/-- Embedding of `Canvas._convertNegativeTupleKeyToPositiveTupleKey` (also
the whole of `_checkKey`): each coordinate must lie in `[-dim, dim)`, and a
negative coordinate is rewritten as `dim + coordinate`.  The x range is
checked before the y range, as in the source. -/
def convertNegativeTupleKey (c : CanvasState) (x y : Int) :
    Except PyErr (Nat × Nat) :=
  if ¬(-(c.width : Int) ≤ x ∧ x < (c.width : Int)) then .error .outOfRange
  else if ¬(-(c.height : Int) ≤ y ∧ y < (c.height : Int)) then .error .outOfRange
  else .ok ((if x < 0 then (c.width : Int) + x else x).toNat,
            (if y < 0 then (c.height : Int) + y else y).toNat)

/-- Embedding of the tuple-key branch of `Canvas.__getitem__`: normalize
the key and read the cell.  The source never assigns to `self` here, so no
state is returned. -/
def getitemTup (c : CanvasState) (kx ky : Int) : Except PyErr (Option PyVal) :=
  match convertNegativeTupleKey c kx ky with
  | .error e => .error e
  | .ok (x, y) => .ok (c.chars x y)

/-- Embedding of the tuple-key branch of `Canvas.__setitem__`.  A
non-`None` value is first converted with `str()`; a zero-length result and
a longer-than-one result are rejected (in that order) before the key is
checked; only then are the dirty flag, the cache, and the cell mutated. -/
def setitemTup (kx ky : Int) (value : Option PyVal) (c : CanvasState) :
    CanvasState × Except PyErr Unit :=
  match value with
  | none =>
    match convertNegativeTupleKey c kx ky with
    | .error e => (c, .error e)
    | .ok (x, y) =>
      ({ c with strDirty := true, strCache := none,
                chars := update2 c.chars x y none }, .ok ())
  | some v =>
    let s := pyStrOf v
    if s.length = 0 then (c, .error .invalidValueEmpty)
    else if s.length ≠ 1 then (c, .error .invalidValue)
    else
      match convertNegativeTupleKey c kx ky with
      | .error e => (c, .error e)
      | .ok (x, y) =>
        ({ c with strDirty := true, strCache := none,
                  chars := update2 c.chars x y (some (.pstr s)) }, .ok ())

/-- Embedding of the tuple-key branch of `Canvas.__delitem__`: the key is
checked first, then the dirty flag, cache, and cell are mutated. -/
def delitemTup (kx ky : Int) (c : CanvasState) :
    CanvasState × Except PyErr Unit :=
  match convertNegativeTupleKey c kx ky with
  | .error e => (c, .error e)
  | .ok (x, y) =>
    ({ c with strDirty := true, strCache := none,
              chars := update2 c.chars x y none }, .ok ())

/-- Number of elements of Python's `range(start, stop, step)` for a
nonzero step (`Int.ediv` is floor division for a positive divisor, which
matches Python's `//`). -/
def pyRangeLen (start stop step : Int) : Nat :=
  if 0 < step then ((stop - start + step - 1) / step).toNat
  else if step < 0 then ((start - stop + (-step) - 1) / (-step)).toNat
  else 0

/-- Element list of Python's `range(start, stop, step)` for a nonzero
step.  A zero step raises `ValueError` in Python; callers model that
separately before using this list. -/
def pyRange3 (start stop step : Int) : List Int :=
  (List.range (pyRangeLen start stop step)).map (fun (k : Nat) => start + step * (k : Int))

/-- Python list indexing semantics for a list of length `len`: an index in
`[0, len)` is used as is, an index in `[-len, 0)` wraps to `len + i`, and
anything else raises `IndexError`.  Used for the source's direct
`self._chars[ix][iy]` accesses, which bypass `_checkKey`. -/
def pyListIndex (len : Nat) (i : Int) : Except PyErr Nat :=
  if 0 ≤ i ∧ i < (len : Int) then .ok i.toNat
  else if -(len : Int) ≤ i ∧ i < 0 then .ok ((len : Int) + i).toNat
  else .error .indexError

/-- Sequencing helper: run `f` on each list element in order, threading
the canvas state and stopping at (and propagating) the first raised
exception, with the partially mutated state kept — Python semantics for a
`for` loop whose body may raise. -/
def runSeq (f : α → CanvasState → CanvasState × Except PyErr Unit) :
    List α → CanvasState → CanvasState × Except PyErr Unit
  | [], c => (c, .ok ())
  | a :: rest, c =>
    match f a c with
    | (c', .ok _) => runSeq f rest c'
    | (c', .error e) => (c', .error e)

/-- Nested loop `for x in xs: for y in ys: f x y`, threading state and
exceptions. -/
def forCells (xs ys : List Int)
    (f : Int → Int → CanvasState → CanvasState × Except PyErr Unit) :
    CanvasState → CanvasState × Except PyErr Unit :=
  runSeq (fun x => runSeq (fun y => f x y) ys) xs

/-- Direct cell write `self._chars[ix][iy] = v` with Python list-index
semantics (negative indices wrap; out-of-range raises `IndexError`). -/
def directSet (ix iy : Int) (v : Option PyVal) (c : CanvasState) :
    CanvasState × Except PyErr Unit :=
  match pyListIndex c.width ix with
  | .error e => (c, .error e)
  | .ok a =>
    match pyListIndex c.height iy with
    | .error e => (c, .error e)
    | .ok b => ({ c with chars := update2 c.chars a b v }, .ok ())

/-- Slice keys as they appear in the source: optional `(x, y)` start and
stop tuples and an optional step that is either a single int (applied to
both axes) or an `(xStep, yStep)` pair. -/
structure SliceKey where
  start : Option (Int × Int)
  stop : Option (Int × Int)
  step : Option (Int ⊕ (Int × Int))

/-- Stop-normalization core of `Canvas._normalizeKeySlice`, applied after
the defaults are filled in and the per-axis raw swap is done: the start is
normalized via `_convertNegativeTupleKeyToPositiveTupleKey`, and each stop
component is normalized the same way unless it equals `width`/`height` or
`-(width-1)`/`-(height-1)`, in which case it is kept unmodified. -/
def normalizeKeySliceCore (c : CanvasState) (x1 y1 x2 y2 xs ys : Int) :
    Except PyErr (Int × Int × Int × Int × Int × Int) :=
  match convertNegativeTupleKey c x1 y1 with
  | .error e => .error e
  | .ok (nx1, ny1) =>
    if x2 ≠ (c.width : Int) ∧ x2 ≠ -((c.width : Int) - 1) ∧
       y2 ≠ (c.height : Int) ∧ y2 ≠ -((c.height : Int) - 1) then
      match convertNegativeTupleKey c x2 y2 with
      | .error e => .error e
      | .ok (nx2, ny2) =>
        .ok ((nx1 : Int), (ny1 : Int), (nx2 : Int), (ny2 : Int), xs, ys)
    else if x2 ≠ (c.width : Int) ∧ x2 ≠ -((c.width : Int) - 1) then
      match convertNegativeTupleKey c x2 0 with
      | .error e => .error e
      | .ok (nx2, _) =>
        .ok ((nx1 : Int), (ny1 : Int), (nx2 : Int), y2, xs, ys)
    else if y2 ≠ (c.height : Int) ∧ y2 ≠ -((c.height : Int) - 1) then
      match convertNegativeTupleKey c 0 y2 with
      | .error e => .error e
      | .ok (_, ny2) =>
        .ok ((nx1 : Int), (ny1 : Int), x2, (ny2 : Int), xs, ys)
    else
      .ok ((nx1 : Int), (ny1 : Int), x2, y2, xs, ys)

/-- Embedding of `Canvas._normalizeKeySlice`.  Defaults are filled in
(`(0,0)`, `(width, height)`, `(1,1)`), start and stop are swapped per axis
on the RAW values, and then the start and stop are normalized by
`normalizeKeySliceCore`.  The `except KeyError` in the source can never
fire (the converter raises `PyTextCanvasException`, not `KeyError`) and is
not modelled. -/
def normalizeKeySlice (c : CanvasState) (key : SliceKey) :
    Except PyErr (Int × Int × Int × Int × Int × Int) :=
  let kstart := key.start.getD (0, 0)
  let kstop := key.stop.getD ((c.width : Int), (c.height : Int))
  let kstep : Int × Int :=
    match key.step with
    | none => (1, 1)
    | some (.inl s) => (s, s)
    | some (.inr p) => p
  normalizeKeySliceCore c
    (if kstart.1 > kstop.1 then kstop.1 else kstart.1)
    (if kstart.2 > kstop.2 then kstop.2 else kstart.2)
    (if kstart.1 > kstop.1 then kstart.1 else kstop.1)
    (if kstart.2 > kstop.2 then kstart.2 else kstop.2)
    kstep.1 kstep.2

/-- Embedding of the slice-key branch of `Canvas.__delitem__`.  Mirrors
the source's statement order faithfully: the dirty flag is set and the
cache dropped BEFORE `_normalizeKeySlice` runs, so a key that fails
validation still leaves the flag set.  The loop writes `None` directly
into `_chars`, bypassing `_checkKey`; a zero x-step raises `ValueError`
when the outer range is created, and a zero y-step raises only once the
outer loop runs its first iteration. -/
def delitemSlice (key : SliceKey) (c : CanvasState) :
    CanvasState × Except PyErr Unit :=
  let c1 := { c with strDirty := true, strCache := none }
  match normalizeKeySlice c1 key with
  | .error e => (c1, .error e)
  | .ok (x1, y1, x2, y2, xStep, yStep) =>
    if xStep = 0 then (c1, .error .valueErrorZeroStep)
    else
      let xs := pyRange3 x1 x2 xStep
      if xs ≠ [] ∧ yStep = 0 then (c1, .error .valueErrorZeroStep)
      else forCells xs (pyRange3 y1 y2 yStep)
             (fun ix iy => directSet ix iy none) c1

/-- Embedding of the slice-key branch of `Canvas.__setitem__`.  A `None`
value delegates to `__delitem__`.  Otherwise the key is normalized (BEFORE
any mutation), the dirty flag is set and the cache dropped, and then the
RAW, unvalidated value object is written directly into `_chars` for every
cell of the stepped rectangle. -/
def setitemSlice (key : SliceKey) (value : Option PyVal) (c : CanvasState) :
    CanvasState × Except PyErr Unit :=
  match value with
  | none => delitemSlice key c
  | some v =>
    match normalizeKeySlice c key with
    | .error e => (c, .error e)
    | .ok (x1, y1, x2, y2, xStep, yStep) =>
      let c1 := { c with strDirty := true, strCache := none }
      if xStep = 0 then (c1, .error .valueErrorZeroStep)
      else
        let xs := pyRange3 x1 x2 xStep
        if xs ≠ [] ∧ yStep = 0 then (c1, .error .valueErrorZeroStep)
        else forCells xs (pyRange3 y1 y2 yStep)
               (fun ix iy => directSet ix iy (some v)) c1

/-- Exact ceiling division on integers for a nonzero divisor, the value of
`math.ceil(a / float(b))` (float rounding of huge quotients is ignored;
all inputs of interest are far below 2^53). -/
def ceilDiv (a b : Int) : Int :=
  -(Int.fdiv (-a) b)

/-- Embedding of the slice-key branch of `Canvas.__getitem__`: normalize
the key, compute the sub-canvas dimensions with ceiling division (a zero
step raises `ZeroDivisionError` here, before the sub-canvas is built),
construct the sub-canvas (its constructor rejects non-positive sizes),
and copy cell by cell.  `self` is never mutated, so only the result is
returned. -/
def getitemSlice (c : CanvasState) (key : SliceKey) : Except PyErr CanvasState :=
  match normalizeKeySlice c key with
  | .error e => .error e
  | .ok (x1, y1, x2, y2, xStep, yStep) =>
    if xStep = 0 then .error .zeroDivision
    else if yStep = 0 then .error .zeroDivision
    else
      let subWidth := ceilDiv (x2 - x1) xStep
      let subHeight := ceilDiv (y2 - y1) yStep
      match canvasFromSize subWidth subHeight with
      | .error e => .error e
      | .ok sub0 =>
        let res := runSeq (fun (p : Nat × Int) sub =>
            runSeq (fun (q : Nat × Int) sub' =>
                match getitemTup c (x1 + p.2) (y1 + q.2) with
                | .error e => (sub', .error e)
                | .ok v => setitemTup (p.1 : Int) (q.1 : Int) v sub')
              ((pyRange3 0 subHeight yStep).enum) sub)
          ((pyRange3 0 subWidth xStep).enum) sub0
        match res with
        | (_, .error e) => .error e
        | (subF, .ok _) => .ok subF

/-- Key shapes accepted by the item operations: a bare int, an `(x, y)`
tuple, or a slice of two points. -/
inductive Key where
  | int : Int → Key
  | tup : Int → Int → Key
  | slice : SliceKey → Key

/-- Result of `__getitem__`: a cell value for a tuple key, a fresh
sub-canvas for a slice key. -/
inductive GetResult where
  | cell : Option PyVal → GetResult
  | sub : CanvasState → GetResult

/-- Full `Canvas.__getitem__` dispatch.  Note the `else` branch: any key
that is neither a tuple nor a slice — including a bare integer, despite
the docstring's promise of linear-index access — raises
`key must be a tuple of two ints`. -/
def getitemKey (c : CanvasState) : Key → Except PyErr GetResult
  | .int _ => .error .keyTypeError
  | .tup x y =>
    match getitemTup c x y with
    | .error e => .error e
    | .ok v => .ok (.cell v)
  | .slice s =>
    match getitemSlice c s with
    | .error e => .error e
    | .ok sub => .ok (.sub sub)

/-- Full `Canvas.__setitem__` dispatch; a bare integer key raises, as in
`__getitem__`. -/
def setitemKey (k : Key) (value : Option PyVal) (c : CanvasState) :
    CanvasState × Except PyErr Unit :=
  match k with
  | .int _ => (c, .error .keyTypeError)
  | .tup x y => setitemTup x y value c
  | .slice s => setitemSlice s value c

/-- Full `Canvas.__delitem__` dispatch; a bare integer key raises. -/
def delitemKey (k : Key) (c : CanvasState) : CanvasState × Except PyErr Unit :=
  match k with
  | .int _ => (c, .error .keyTypeError)
  | .tup x y => delitemTup x y c
  | .slice s => delitemSlice s c

/-- The effect of `''.join(row)` on a row whose `None` cells have already
been replaced by `' '`: concatenates string cells, raises `TypeError` on
any non-string cell. -/
def joinRow : List PyVal → Except PyErr (List Char)
  | [] => .ok []
  | .pstr s :: rest =>
    match joinRow rest with
    | .error e => .error e
    | .ok t => .ok (s ++ t)
  | .pint _ :: _ => .error .typeError

/-- Row `y` of the string rendering: each cell's stored string, with `' '`
for a transparent (`None`) cell, joined left to right. -/
def renderRowE (c : CanvasState) (y : Nat) : Except PyErr (List Char) :=
  joinRow ((List.range c.width).map (fun x => (c.chars x y).getD (.pstr [' '])))

/-- Row loop of the dirty branch of `Canvas.__str__`: render each row in
order, stopping at the first `TypeError`. -/
def renderRowsE (c : CanvasState) : List Nat → Except PyErr (List (List Char))
  | [] => .ok []
  | y :: rest =>
    match renderRowE c y with
    | .error e => .error e
    | .ok row =>
      match renderRowsE c rest with
      | .error e => .error e
      | .ok rows => .ok (row :: rows)

/-- Full fresh rendering as computed by the dirty branch of
`Canvas.__str__`: rows top to bottom joined by a single newline, no
trailing newline. -/
def renderE (c : CanvasState) : Except PyErr (List Char) :=
  match renderRowsE c (List.range c.height) with
  | .error e => .error e
  | .ok rows => .ok (List.intercalate ['\n'] rows)

/-- Embedding of `Canvas.__str__`: return the cache when the dirty flag is
clear; otherwise render, and only on success store the text and clear the
flag (the join's `TypeError` fires inside the row loop, before either
assignment).  The cached branch returns whatever object `_strCache`
holds — possibly `None`. -/
def strOp (c : CanvasState) : CanvasState × Except PyErr (Option (List Char)) :=
  if c.strDirty = false then (c, .ok c.strCache)
  else
    match renderE c with
    | .error e => (c, .error e)
    | .ok txt => ({ c with strDirty := false, strCache := some txt },
                  .ok (some txt))

/-- Embedding of `Canvas.__contains__`: `item in str(self)` — this calls
`__str__`, so it shares its cache mutation; `item in None` (a cleared
dirty flag with an empty cache) raises `TypeError`. -/
def containsOp (item : List Char) (c : CanvasState) :
    CanvasState × Except PyErr Bool :=
  match strOp c with
  | (c', .error e) => (c', .error e)
  | (c', .ok none) => (c', .error .typeError)
  | (c', .ok (some s)) => (c', .ok (decide (List.IsInfix item s)))

/-- Embedding of `Canvas.__eq__`: same width, same height, and identical
cell contents at every coordinate.  A pure function of the two states. -/
def eqOp (c d : CanvasState) : Bool :=
  if c.width ≠ d.width ∨ c.height ≠ d.height then false
  else (List.range c.width).all (fun x => (List.range c.height).all (fun y =>
    decide (c.chars x y = d.chars x y)))

/-- Embedding of `Canvas.fill`: a non-`None` char is converted with
`str()` and must have length exactly 1; then every cell is assigned
through `__setitem__`, x-major as in the source. -/
def fillOp (char : Option PyVal) (c : CanvasState) :
    CanvasState × Except PyErr Unit :=
  match char with
  | none => forCells (pyRange3 0 (c.width : Int) 1) (pyRange3 0 (c.height : Int) 1)
      (fun x y => setitemTup x y none) c
  | some v =>
    let s := pyStrOf v
    if s.length ≠ 1 then (c, .error .invalidValue)
    else forCells (pyRange3 0 (c.width : Int) 1) (pyRange3 0 (c.height : Int) 1)
      (fun x y => setitemTup x y (some (.pstr s))) c

/-- Embedding of `Canvas.clear`: `fill(None)`. -/
def clearOp (c : CanvasState) : CanvasState × Except PyErr Unit :=
  fillOp none c

/-- Embedding of `Canvas.shift`, statement by statement: the clear
shortcut when either offset reaches the corresponding dimension; the copy
loop over the source's range objects (note the non-positive-offset ranges
run PAST the far edge: `range(self.width - xOffset)` with a negative
offset reaches `x = width`, where the read raises after earlier writes to
negative keys have already wrapped around); then the two vacated-strip
clearing passes. -/
def shiftOp (xOff yOff : Int) (c : CanvasState) :
    CanvasState × Except PyErr Unit :=
  if xOff ≥ (c.width : Int) ∨ xOff ≤ -(c.width : Int) ∨
     yOff ≥ (c.height : Int) ∨ yOff ≤ -(c.height : Int) then
    clearOp c
  else
    let xR := if 0 < xOff then pyRange3 ((c.width : Int) - 1 - xOff) (-1) (-1)
              else pyRange3 0 ((c.width : Int) - xOff) 1
    let yR := if 0 < yOff then pyRange3 ((c.height : Int) - 1 - yOff) (-1) (-1)
              else pyRange3 0 ((c.height : Int) - yOff) 1
    match forCells xR yR (fun x y st =>
        match getitemTup st x y with
        | .error e => (st, .error e)
        | .ok v => setitemTup (x + xOff) (y + yOff) v st) c with
    | (c1, .error e) => (c1, .error e)
    | (c1, .ok _) =>
      let xClr := if 0 ≤ xOff then pyRange3 0 xOff 1
                  else pyRange3 ((c1.width : Int) - 1 - xOff) (c1.width : Int) 1
      match forCells xClr (pyRange3 0 (c1.height : Int) 1)
          (fun x y st => delitemTup x y st) c1 with
      | (c2, .error e) => (c2, .error e)
      | (c2, .ok _) =>
        let yClr := if 0 ≤ yOff then pyRange3 0 yOff 1
                    else pyRange3 0 ((c2.height : Int) - 1 - yOff) 1
        forCells (pyRange3 0 (c2.width : Int) 1) yClr
          (fun x y st => delitemTup x y st) c2

/-- Inner loop of `Canvas.loads` over one line: write each character
through `__setitem__` at `(x, y)`, breaking when `x` reaches the canvas
width. -/
def loadsLineLoop (y : Int) : List Char → Nat → CanvasState →
    CanvasState × Except PyErr Unit
  | [], _, c => (c, .ok ())
  | v :: rest, x, c =>
    if (c.width : Int) ≤ (x : Int) then (c, .ok ())
    else
      match setitemTup (x : Int) y (some (.pstr [v])) c with
      | (c', .ok _) => loadsLineLoop y rest (x + 1) c'
      | (c', .error e) => (c', .error e)

/-- Outer loop of `Canvas.loads` over the lines: after each line the row
index is incremented and the loop breaks once it reaches the canvas
height. -/
def loadsLinesLoop : List (List Char) → Nat → CanvasState →
    CanvasState × Except PyErr Unit
  | [], _, c => (c, .ok ())
  | line :: rest, y, c =>
    match loadsLineLoop (y : Int) line 0 c with
    | (c', .error e) => (c', .error e)
    | (c', .ok _) =>
      if c'.height ≤ y + 1 then (c', .ok ())
      else loadsLinesLoop rest (y + 1) c'

/-- Python's `content.split('\n')`: never returns an empty list; an empty
string yields `[[]]`. -/
def splitNl : List Char → List (List Char)
  | [] => [[]]
  | ch :: rest =>
    if ch = '\n' then [] :: splitNl rest
    else
      match splitNl rest with
      | [] => [[ch]]
      | l :: ls => (ch :: l) :: ls

/-- Embedding of `Canvas.loads`. -/
def loadsOp (content : List Char) (c : CanvasState) :
    CanvasState × Except PyErr Unit :=
  loadsLinesLoop (splitNl content) 0 c

/-- Python's `max([len(line) for line in lines])` for the (always
nonempty) result of a split: `foldr max 0` agrees with `max` on a
nonempty list of naturals since `0` is the identity of `max`. -/
def maxLen (lines : List (List Char)) : Nat :=
  (lines.map List.length).foldr max 0

/-- Embedding of the preload branch of `Canvas.__init__` (both size
arguments omitted, `loads` text given): width is the maximum line length,
height the line count, the content is applied via `loads`, and the final
two `__init__` statements reset `_strCache`/`_strDirty`. -/
def canvasFromLoads (t : List Char) : CanvasState :=
  let ls := splitNl t
  let st := (loadsOp t (initCanvas (maxLen ls) ls.length)).1
  { st with strDirty := true, strCache := none }

/-- The operations whose effect on one canvas's state we track (reads
that provably never assign to `self` — `__getitem__`, `__eq__` — are pure
functions elsewhere and do not appear). -/
inductive Op where
  | setT : Int → Int → Option PyVal → Op
  | setS : SliceKey → Option PyVal → Op
  | delT : Int → Int → Op
  | delS : SliceKey → Op
  | fill : Option PyVal → Op
  | clear : Op
  | shift : Int → Int → Op
  | loads : List Char → Op
  | render : Op

/-- The state after one operation, whether it returned normally or
raised. -/
def applyOp (c : CanvasState) : Op → CanvasState
  | .setT x y v => (setitemTup x y v c).1
  | .setS k v => (setitemSlice k v c).1
  | .delT x y => (delitemTup x y c).1
  | .delS k => (delitemSlice k c).1
  | .fill v => (fillOp v c).1
  | .clear => (clearOp c).1
  | .shift dx dy => (shiftOp dx dy c).1
  | .loads t => (loadsOp t c).1
  | .render => (strOp c).1

/-- The state after a sequence of operations. -/
def runOps (c : CanvasState) (ops : List Op) : CanvasState :=
  ops.foldl applyOp c

/-- The cache-consistency invariant: a clear dirty flag means the cached
text is exactly what a fresh render of the current cells would produce. -/
def CacheOK (c : CanvasState) : Prop :=
  c.strDirty = false → ∃ r, renderE c = .ok r ∧ c.strCache = some r

/-- Modelled from the spec: the scan loop of §4.5 LineRasterizer (the
source's only line primitive, `Canvas.line`, is an empty stub, and the
`pybresenham` import is commented out).  `n` counts the remaining steps of
the walk from the current `x`; each step emits `(x, y)`, decrements the
error accumulator by `deltaY = dy`, and when it goes negative steps `y` by
`ystep` and adds `deltaX = dx` back. -/
def linePointsLoop (dx dy ystep : Int) : Nat → Int → Int → Int → List (Int × Int)
  | 0, x, y, _ => [(x, y)]
  | n + 1, x, y, err =>
    let e := err - dy
    if e < 0 then (x, y) :: linePointsLoop dx dy ystep n (x + 1) (y + ystep) (e + dx)
    else (x, y) :: linePointsLoop dx dy ystep n (x + 1) y e

/-- Modelled from the spec: `line_points(x1, y1, x2, y2)` of §4.5, absent
from the source (`Canvas.line` is `pass`).  Steps 1–4 of the spec: swap
the axis roles when the line is steep, swap the endpoints when the (post
swap) start is right of the stop, walk the major coordinate with the
Bresenham error accumulator starting at `floor(deltaX/2)`, emit `(y, x)`
when steep (done here by un-swapping the scan output, which emits the same
sequence), and reverse at the end when the endpoints were swapped. -/
def line_points (x1 y1 x2 y2 : Int) : List (Int × Int) :=
  let steep := (x2 - x1).natAbs < (y2 - y1).natAbs
  let p := if steep then (y1, x1, y2, x2) else (x1, y1, x2, y2)
  let rev := p.2.2.1 < p.1
  let q := if rev then (p.2.2.1, p.2.2.2, p.1, p.2.1) else p
  let deltaX := q.2.2.1 - q.1
  let deltaY := ((q.2.2.2 - q.2.1).natAbs : Int)
  let ystep : Int := if q.2.1 < q.2.2.2 then 1 else -1
  let scan := linePointsLoop deltaX deltaY ystep deltaX.toNat q.1 q.2.1 (deltaX / 2)
  let pts := if steep then scan.map (fun r => (r.2, r.1)) else scan
  if rev then pts.reverse else pts

/-! ## Helper lemmas -/

theorem convertNegativeTupleKey_nat (c : CanvasState) (x y : Nat)
    (hx : x < c.width) (hy : y < c.height) :
    convertNegativeTupleKey c (x : Int) (y : Int) = .ok (x, y) := by
  unfold convertNegativeTupleKey
  rw [if_neg (by omega), if_neg (by omega), if_neg (by omega), if_neg (by omega)]
  simp

theorem setitemTup_width (kx ky : Int) (v : Option PyVal) (c : CanvasState) :
    (setitemTup kx ky v c).1.width = c.width := by
  unfold setitemTup
  cases v with
  | none => cases h : convertNegativeTupleKey c kx ky <;> simp [h]
  | some v =>
    dsimp only
    split
    · rfl
    · split
      · rfl
      · cases h : convertNegativeTupleKey c kx ky <;> simp [h]

theorem setitemTup_height (kx ky : Int) (v : Option PyVal) (c : CanvasState) :
    (setitemTup kx ky v c).1.height = c.height := by
  unfold setitemTup
  cases v with
  | none => cases h : convertNegativeTupleKey c kx ky <;> simp [h]
  | some v =>
    dsimp only
    split
    · rfl
    · split
      · rfl
      · cases h : convertNegativeTupleKey c kx ky <;> simp [h]

/-! ## Claim theorems, part 1 -/

/-- C1: for every canvas and every in-range coordinate pair `(x, y)` and
every single-character string `ch`, `set((x, y), ch)` succeeds and a
subsequent `get((x, y))` returns `ch`. -/
theorem C1_set_get_roundtrip (c : CanvasState) (x y : Nat) (s : List Char)
    (hx : x < c.width) (hy : y < c.height) (hs : s.length = 1) :
    (setitemTup (x : Int) (y : Int) (some (.pstr s)) c).2 = .ok () ∧
    getitemTup (setitemTup (x : Int) (y : Int) (some (.pstr s)) c).1
      (x : Int) (y : Int) = .ok (some (.pstr s)) := by
  have hconv := convertNegativeTupleKey_nat c x y hx hy
  have hset : setitemTup (x : Int) (y : Int) (some (.pstr s)) c =
      ({ c with strDirty := true, strCache := none,
                chars := update2 c.chars x y (some (.pstr s)) }, .ok ()) := by
    unfold setitemTup
    dsimp only [pyStrOf]
    rw [if_neg (by omega), if_neg (by omega), hconv]
  refine ⟨by rw [hset], ?_⟩
  rw [hset]
  dsimp only
  have hconv' : convertNegativeTupleKey
      { c with strDirty := true, strCache := none,
               chars := update2 c.chars x y (some (.pstr s)) }
      (x : Int) (y : Int) = .ok (x, y) :=
    convertNegativeTupleKey_nat _ x y hx hy
  unfold getitemTup
  rw [hconv']
  simp [update2]

/-- C1 witness: the round trip at `(2, 1)` with `'z'` on a `4 × 3`
canvas. -/
theorem C1_set_get_roundtrip_witness :
    (setitemTup ((2 : Nat) : Int) ((1 : Nat) : Int) (some (.pstr ['z']))
      (initCanvas 4 3)).2 = .ok () ∧
    getitemTup (setitemTup ((2 : Nat) : Int) ((1 : Nat) : Int)
      (some (.pstr ['z'])) (initCanvas 4 3)).1 ((2 : Nat) : Int)
      ((1 : Nat) : Int) = .ok (some (.pstr ['z'])) :=
  C1_set_get_roundtrip (initCanvas 4 3) 2 1 ['z'] (by decide) (by decide)
    (by decide)

/-- C2: contrary to the claim (and to `__getitem__`'s own docstring, which
promises linear-index access with negative wraparound), every bare integer
key — for any canvas, any index value, in-range or not — is rejected by
the final `else` branch of `__getitem__` and `__setitem__` with
`key must be a tuple of two ints`; no linear-index resolution exists in
the source. -/
theorem C2_integer_key_always_rejected (c : CanvasState) (i : Int)
    (v : Option PyVal) :
    getitemKey c (.int i) = .error .keyTypeError ∧
    setitemKey (.int i) v c = (c, .error .keyTypeError) ∧
    delitemKey (.int i) c = (c, .error .keyTypeError) :=
  ⟨rfl, rfl, rfl⟩

/-- C5 counterexample: on a freshly constructed `1 × 1` canvas the dirty
flag is `true`, and a single `to_string` call flips it to `false` — so
string rendering does not leave the cache-dirty flag unchanged. -/
theorem C5_counterexample_str_clears_dirty :
    (initCanvas 1 1).strDirty = true ∧
    (strOp (initCanvas 1 1)).1.strDirty = false := by
  constructor
  · rfl
  · decide

/-- C5 amended: equality is a pure function of the two canvas states;
containment and string rendering never change the cells or the
dimensions, never set the dirty flag to `true`, and leave the state
entirely unchanged when the flag is already clear — but when the flag is
set they may clear it (and populate the cache) as part of lazy
rendering. -/
theorem C5_read_ops_do_not_touch_cells (c : CanvasState) :
    ((strOp c).1.chars = c.chars ∧ (strOp c).1.width = c.width ∧
      (strOp c).1.height = c.height) ∧
    ((strOp c).1.strDirty = true → c.strDirty = true) ∧
    (c.strDirty = false → (strOp c).1 = c) ∧
    (∀ item : List Char,
      ((containsOp item c).1.chars = c.chars ∧
        (containsOp item c).1.width = c.width ∧
        (containsOp item c).1.height = c.height) ∧
      ((containsOp item c).1.strDirty = true → c.strDirty = true) ∧
      (c.strDirty = false → (containsOp item c).1 = c)) := by
  have hstr : (strOp c).1 = c ∨
      ∃ txt, (strOp c).1 = { c with strDirty := false, strCache := some txt } := by
    unfold strOp
    split
    · exact .inl rfl
    · split
      · exact .inl rfl
      · exact .inr ⟨_, rfl⟩
  have hmain : ((strOp c).1.chars = c.chars ∧ (strOp c).1.width = c.width ∧
      (strOp c).1.height = c.height) ∧
      ((strOp c).1.strDirty = true → c.strDirty = true) ∧
      (c.strDirty = false → (strOp c).1 = c) := by
    refine ⟨?_, ?_, ?_⟩
    · rcases hstr with h | ⟨txt, h⟩ <;> rw [h] <;> exact ⟨rfl, rfl, rfl⟩
    · rcases hstr with h | ⟨txt, h⟩ <;> rw [h]
      · exact fun h' => h'
      · intro h'
        exact absurd h' (by simp)
    · intro hclean
      unfold strOp
      rw [if_pos hclean]
  have hcont : ∀ item : List Char, (containsOp item c).1 = (strOp c).1 := by
    intro item
    unfold containsOp
    rcases h2 : strOp c with ⟨c', r⟩
    cases r with
    | error e => rfl
    | ok o => cases o <;> rfl
  refine ⟨hmain.1, hmain.2.1, hmain.2.2, fun item => ?_⟩
  rw [hcont item]
  exact hmain

/-- C5 amended witness: the read-only facts instantiated on a clean
(already rendered) `2 × 2` canvas. -/
theorem C5_read_ops_do_not_touch_cells_witness :
    ((strOp (strOp (initCanvas 2 2)).1).1.strDirty = true →
      (strOp (initCanvas 2 2)).1.strDirty = true) ∧
    ((strOp (initCanvas 2 2)).1.strDirty = false →
      (strOp (strOp (initCanvas 2 2)).1).1 = (strOp (initCanvas 2 2)).1) :=
  ⟨(C5_read_ops_do_not_touch_cells (strOp (initCanvas 2 2)).1).2.1,
   (C5_read_ops_do_not_touch_cells (strOp (initCanvas 2 2)).1).2.2.1⟩

/-- C8: evaluating `_normalizeKeySlice` on the default `80 × 25` canvas at
the mixed-sign key `(-1, 0):(5, 5)` returns `(79, 0, 5, 5, 1, 1)`: the
per-axis swap happens on the raw values BEFORE negative indices are
normalized, so the resolved rectangle has `x1 = 79 > x2 = 5`,
contradicting the claimed (and the method docstring's) top-left /
bottom-right canonical form. -/
theorem C8_mixed_sign_slice_not_canonical :
    normalizeKeySlice (initCanvas 80 25)
      { start := some (-1, 0), stop := some (5, 5), step := none }
      = .ok (79, 0, 5, 5, 1, 1) ∧ ¬((79 : Int) ≤ 5) := by
  constructor
  · decide
  · decide

/-- C10: a non-`None`, non-string value `v` passed to a tuple-key `set` is
first converted with `str()`; when the string form has length exactly 1
(e.g. the integer `5`, stored as `"5"`) the call succeeds and stores that
string, and only when the string form's length differs from 1 is the call
rejected (with the empty-value or the multi-character `InvalidValue`
error, the canvas left unchanged). -/
theorem C10_value_converted_via_str (c : CanvasState) (x y : Nat) (v : PyVal)
    (hx : x < c.width) (hy : y < c.height) :
    ((pyStrOf v).length = 1 →
      (setitemTup (x : Int) (y : Int) (some v) c).2 = .ok () ∧
      getitemTup (setitemTup (x : Int) (y : Int) (some v) c).1
        (x : Int) (y : Int) = .ok (some (.pstr (pyStrOf v)))) ∧
    ((pyStrOf v).length ≠ 1 →
      (setitemTup (x : Int) (y : Int) (some v) c).1 = c ∧
      ((setitemTup (x : Int) (y : Int) (some v) c).2 = .error .invalidValueEmpty ∨
       (setitemTup (x : Int) (y : Int) (some v) c).2 = .error .invalidValue)) := by
  have hconv := convertNegativeTupleKey_nat c x y hx hy
  constructor
  · intro h1
    have hset : setitemTup (x : Int) (y : Int) (some v) c =
        ({ c with strDirty := true, strCache := none,
                  chars := update2 c.chars x y (some (.pstr (pyStrOf v))) },
         .ok ()) := by
      unfold setitemTup
      dsimp only
      rw [if_neg (by omega), if_neg (by omega), hconv]
    refine ⟨by rw [hset], ?_⟩
    rw [hset]
    dsimp only
    have hconv2 : convertNegativeTupleKey
        { c with strDirty := true, strCache := none,
                 chars := update2 c.chars x y (some (.pstr (pyStrOf v))) }
        (x : Int) (y : Int) = .ok (x, y) :=
      convertNegativeTupleKey_nat _ x y hx hy
    unfold getitemTup
    rw [hconv2]
    simp [update2]
  · intro h1
    unfold setitemTup
    dsimp only
    by_cases h0 : (pyStrOf v).length = 0
    · rw [if_pos h0]
      exact ⟨rfl, .inl rfl⟩
    · rw [if_neg h0, if_pos h1]
      exact ⟨rfl, .inr rfl⟩

/-- C10 witness: on a `2 × 2` canvas, `set((0,0), 5)` stores `"5"` and
`set((0,0), 55)` is rejected. -/
theorem C10_value_converted_via_str_witness :
    ((pyStrOf (.pint 5)).length = 1 →
      (setitemTup ((0 : Nat) : Int) ((0 : Nat) : Int) (some (.pint 5))
        (initCanvas 2 2)).2 = .ok () ∧
      getitemTup (setitemTup ((0 : Nat) : Int) ((0 : Nat) : Int)
        (some (.pint 5)) (initCanvas 2 2)).1 ((0 : Nat) : Int)
        ((0 : Nat) : Int) = .ok (some (.pstr (pyStrOf (.pint 5))))) ∧
    ((pyStrOf (.pint 55)).length ≠ 1 →
      (setitemTup ((0 : Nat) : Int) ((0 : Nat) : Int) (some (.pint 55))
        (initCanvas 2 2)).1 = initCanvas 2 2 ∧
      ((setitemTup ((0 : Nat) : Int) ((0 : Nat) : Int) (some (.pint 55))
        (initCanvas 2 2)).2 = .error .invalidValueEmpty ∨
       (setitemTup ((0 : Nat) : Int) ((0 : Nat) : Int) (some (.pint 55))
        (initCanvas 2 2)).2 = .error .invalidValue)) :=
  ⟨(C10_value_converted_via_str (initCanvas 2 2) 0 0 (.pint 5)
      (by decide) (by decide)).1,
   (C10_value_converted_via_str (initCanvas 2 2) 0 0 (.pint 55)
      (by decide) (by decide)).2⟩

/-- C4 counterexample: on an already-rendered (clean) `2 × 2` canvas, a
slice `delete` whose stop `(99, 99)` fails validation raises — but the
dirty flag has already been set to `true` and the cache dropped, because
`__delitem__`'s slice branch mutates the cache state before calling
`_normalizeKeySlice`.  The canvas state is therefore not left completely
unchanged by the failed operation. -/
theorem C4_counterexample_slice_delete_dirties_before_validating :
    (strOp (initCanvas 2 2)).1.strDirty = false ∧
    (delitemSlice { start := some (0, 0), stop := some (99, 99), step := none }
      ((strOp (initCanvas 2 2)).1)).2 = .error .outOfRange ∧
    (delitemSlice { start := some (0, 0), stop := some (99, 99), step := none }
      ((strOp (initCanvas 2 2)).1)).1.strDirty = true := by
  refine ⟨by decide, by decide, by decide⟩

/-- C6 counterexample: `loads` is a mutating operation that does NOT
always set the dirty flag before returning: on an already-rendered (clean)
`1 × 1` canvas, `loads('')` writes no cell and returns normally with the
dirty flag still `false`. -/
theorem C6_counterexample_loads_empty_keeps_flag :
    (strOp (initCanvas 1 1)).1.strDirty = false ∧
    (loadsOp [] ((strOp (initCanvas 1 1)).1)).2 = .ok () ∧
    (loadsOp [] ((strOp (initCanvas 1 1)).1)).1.strDirty = false := by
  refine ⟨by decide, by decide, by decide⟩

/-- C7: evaluating `shift(-1, 0)` on a `2 × 1` canvas holding `"ab"`: the
claim (and `shift`'s docstring) says the content moves left with the
fallen-off cell discarded and no wraparound, giving `"b "`.  Instead the
copy loop's negative-offset range runs from `0` to `width - xOffset - 1`:
the write to key `x = -1` wraps to the right edge (copying `'a'` onto
`'b'`), and the read at `x = width` then raises out-of-range, leaving the
canvas as `"aa"` with an exception propagated. -/
theorem C7_negative_shift_wraps_then_raises :
    (shiftOp (-1) 0 ((setitemTup 1 0 (some (.pstr ['b']))
        ((setitemTup 0 0 (some (.pstr ['a'])) (initCanvas 2 1)).1)).1)).2
      = .error .outOfRange ∧
    (shiftOp (-1) 0 ((setitemTup 1 0 (some (.pstr ['b']))
        ((setitemTup 0 0 (some (.pstr ['a'])) (initCanvas 2 1)).1)).1)).1.chars 1 0
      = some (.pstr ['a']) ∧
    (shiftOp (-1) 0 ((setitemTup 1 0 (some (.pstr ['b']))
        ((setitemTup 0 0 (some (.pstr ['a'])) (initCanvas 2 1)).1)).1)).1.chars 0 0
      = some (.pstr ['a']) := by
  refine ⟨by decide, by decide, by decide⟩

/-! ## Bresenham scan-loop lemmas (for C3) -/

theorem linePointsLoop_ne_nil (dx dy ystep : Int) (n : Nat) (x y err : Int) :
    linePointsLoop dx dy ystep n x y err ≠ [] := by
  cases n with
  | zero => simp [linePointsLoop]
  | succ n =>
    unfold linePointsLoop
    dsimp only
    split <;> simp

theorem linePointsLoop_head (dx dy ystep : Int) (n : Nat) (x y err : Int) :
    (linePointsLoop dx dy ystep n x y err).head? = some (x, y) := by
  cases n with
  | zero => rfl
  | succ n =>
    unfold linePointsLoop
    dsimp only
    split <;> rfl

theorem linePointsLoop_fst_lb (dx dy ystep : Int) :
    ∀ (n : Nat) (x y err : Int) (p : Int × Int),
      p ∈ linePointsLoop dx dy ystep n x y err → x ≤ p.1 := by
  intro n
  induction n with
  | zero =>
    intro x y err p hp
    simp only [linePointsLoop, List.mem_singleton] at hp
    subst hp
    exact le_refl x
  | succ n ih =>
    intro x y err p hp
    unfold linePointsLoop at hp
    dsimp only at hp
    split at hp <;>
      rcases List.mem_cons.mp hp with h | h
    · subst h; exact le_refl x
    · have := ih (x + 1) _ _ p h; omega
    · subst h; exact le_refl x
    · have := ih (x + 1) _ _ p h; omega

theorem linePointsLoop_nodup (dx dy ystep : Int) :
    ∀ (n : Nat) (x y err : Int), (linePointsLoop dx dy ystep n x y err).Nodup := by
  intro n
  induction n with
  | zero => intro x y err; simp [linePointsLoop]
  | succ n ih =>
    intro x y err
    unfold linePointsLoop
    dsimp only
    split <;>
      (rw [List.nodup_cons]
       refine ⟨fun hmem => ?_, ih _ _ _⟩
       have := linePointsLoop_fst_lb dx dy ystep n (x + 1) _ _ _ hmem
       simp only at this
       omega)

theorem getLast?_cons_of_ne_nil {α : Type} (a : α) {l : List α} (h : l ≠ []) :
    (a :: l).getLast? = l.getLast? := by
  cases l with
  | nil => exact absurd rfl h
  | cons b t => exact List.getLast?_cons_cons

theorem linePointsLoop_getLast (dx dy ystep : Int) (hdy0 : 0 ≤ dy)
    (hdydx : dy ≤ dx) :
    ∀ (n : Nat) (x y err : Int), 0 ≤ err → err < dx →
      (linePointsLoop dx dy ystep n x y err).getLast?
        = some (x + (n : Int),
                y + ystep * (((n : Int) * dy + (dx - 1 - err)) / dx)) := by
  intro n
  induction n with
  | zero =>
    intro x y err h0 h1
    have hz : ((0 : Int) * dy + (dx - 1 - err)) / dx = 0 := by
      rw [zero_mul, zero_add]
      exact Int.ediv_eq_zero_of_lt (by omega) (by omega)
    simp only [Nat.cast_zero, hz, mul_zero, add_zero, linePointsLoop,
      List.getLast?_singleton]
  | succ n ih =>
    intro x y err h0 h1
    have hdx : (0 : Int) < dx := by omega
    unfold linePointsLoop
    dsimp only
    split
    case isTrue hlt =>
      rw [getLast?_cons_of_ne_nil _ (linePointsLoop_ne_nil dx dy ystep n _ _ _)]
      rw [ih (x + 1) (y + ystep) (err - dy + dx) (by omega) (by omega)]
      have hA : (((n : Nat) + 1 : Nat) : Int) * dy + (dx - 1 - err)
          = ((n : Int) * dy + (dx - 1 - (err - dy + dx))) + 1 * dx := by
        push_cast
        ring
      rw [hA, Int.add_mul_ediv_right _ _ (by omega)]
      congr 1
      rw [Prod.mk.injEq]
      constructor
      · push_cast
        ring
      · ring
    case isFalse hge =>
      rw [getLast?_cons_of_ne_nil _ (linePointsLoop_ne_nil dx dy ystep n _ _ _)]
      rw [ih (x + 1) y (err - dy) (by omega) (by omega)]
      have hA : (((n : Nat) + 1 : Nat) : Int) * dy + (dx - 1 - err)
          = (n : Int) * dy + (dx - 1 - (err - dy)) := by
        push_cast
        ring
      rw [hA]
      congr 1
      rw [Prod.mk.injEq]
      constructor
      · push_cast
        ring
      · rfl

theorem linePointsScan_spec (a1 b1 a2 b2 : Int) (hle : a1 ≤ a2)
    (hdom : ((b2 - b1).natAbs : Int) ≤ a2 - a1) :
    (linePointsLoop (a2 - a1) ((b2 - b1).natAbs : Int)
        (if b1 < b2 then 1 else -1) (a2 - a1).toNat a1 b1
        ((a2 - a1) / 2)).head? = some (a1, b1) ∧
    (linePointsLoop (a2 - a1) ((b2 - b1).natAbs : Int)
        (if b1 < b2 then 1 else -1) (a2 - a1).toNat a1 b1
        ((a2 - a1) / 2)).getLast? = some (a2, b2) ∧
    (linePointsLoop (a2 - a1) ((b2 - b1).natAbs : Int)
        (if b1 < b2 then 1 else -1) (a2 - a1).toNat a1 b1
        ((a2 - a1) / 2)).Nodup := by
  refine ⟨linePointsLoop_head .., ?_, linePointsLoop_nodup ..⟩
  by_cases heq : a1 = a2
  · have hb : b2 = b1 := by omega
    have hn0 : (a2 - a1).toNat = 0 := by omega
    rw [hn0]
    subst heq
    subst hb
    simp [linePointsLoop, List.getLast?_singleton]
  · have hdx : (0 : Int) < a2 - a1 := by omega
    rw [linePointsLoop_getLast (a2 - a1) ((b2 - b1).natAbs : Int) _
      (by positivity) hdom (a2 - a1).toNat a1 b1 ((a2 - a1) / 2)
      (by omega) (by omega)]
    rw [Int.toNat_of_nonneg (by omega)]
    have h2 : (a2 - a1) * ((b2 - b1).natAbs : Int)
        + ((a2 - a1) - 1 - (a2 - a1) / 2)
        = ((a2 - a1) - 1 - (a2 - a1) / 2) + ((b2 - b1).natAbs : Int) * (a2 - a1) := by
      ring
    rw [h2, Int.add_mul_ediv_right _ _ (by omega),
      Int.ediv_eq_zero_of_lt (by omega) (by omega), zero_add]
    congr 1
    rw [Prod.mk.injEq]
    refine ⟨by ring, ?_⟩
    split <;> omega

theorem swap_injective : Function.Injective (fun r : Int × Int => (r.2, r.1)) := by
  intro a b h
  cases a
  cases b
  simpa [Prod.ext_iff, and_comm] using h

theorem line_points_spec (x1 y1 x2 y2 : Int) :
    (line_points x1 y1 x2 y2).head? = some (x1, y1) ∧
    (line_points x1 y1 x2 y2).getLast? = some (x2, y2) ∧
    (line_points x1 y1 x2 y2).Nodup := by
  by_cases hsteep : (x2 - x1).natAbs < (y2 - y1).natAbs
  · simp only [line_points, if_pos hsteep]
    by_cases hrev : y2 < y1
    · rw [if_pos hrev]
      rw [if_pos hrev]
      obtain ⟨hh, hl, hnd⟩ := linePointsScan_spec y2 x2 y1 x1 (by omega) (by omega)
      refine ⟨?_, ?_, ?_⟩
      · rw [List.head?_reverse, List.getLast?_map, hl]
        rfl
      · rw [List.getLast?_reverse, List.head?_map, hh]
        rfl
      · exact List.nodup_reverse.mpr (hnd.map swap_injective)
    · rw [if_neg hrev]
      rw [if_neg hrev]
      obtain ⟨hh, hl, hnd⟩ := linePointsScan_spec y1 x1 y2 x2 (by omega) (by omega)
      refine ⟨?_, ?_, ?_⟩
      · rw [List.head?_map, hh]
        rfl
      · rw [List.getLast?_map, hl]
        rfl
      · exact hnd.map swap_injective
  · simp only [line_points, if_neg hsteep]
    by_cases hrev : x2 < x1
    · rw [if_pos hrev]
      rw [if_pos hrev]
      obtain ⟨hh, hl, hnd⟩ := linePointsScan_spec x2 y2 x1 y1 (by omega) (by omega)
      refine ⟨?_, ?_, ?_⟩
      · rw [List.head?_reverse, hl]
      · rw [List.getLast?_reverse, hh]
      · exact List.nodup_reverse.mpr hnd
    · rw [if_neg hrev]
      rw [if_neg hrev]
      obtain ⟨hh, hl, hnd⟩ := linePointsScan_spec x1 y1 x2 y2 (by omega) (by omega)
      exact ⟨hh, hl, hnd⟩

theorem count_eq_one_of_nodup_mem {l : List (Int × Int)} (hn : l.Nodup)
    {p : Int × Int} (hp : p ∈ l) : l.count p = 1 := by
  induction l with
  | nil => exact absurd hp (List.not_mem_nil p)
  | cons a t ih =>
    rw [List.nodup_cons] at hn
    rcases List.mem_cons.mp hp with h | h
    · subst h
      rw [List.count_cons, if_pos (by simp), List.count_eq_zero.mpr hn.1]
    · rw [List.count_cons, if_neg ?_, ih hn.2 h]
      intro hbeq
      exact absurd (eq_of_beq hbeq ▸ h) hn.1

/-- C3: `line_points` implements Bresenham's algorithm (modelled from the
spec, since `Canvas.line` in the source is an empty stub): the three
concrete examples of the spec hold exactly, and for all integer endpoints
the result is a finite, deterministic list that starts at `(x1, y1)`, ends
at `(x2, y2)`, contains each endpoint exactly once, and collapses to the
single point `[(x1, y1)]` when the endpoints coincide. -/
theorem C3_line_points_bresenham :
    (line_points 0 0 6 6
      = [(0, 0), (1, 1), (2, 2), (3, 3), (4, 4), (5, 5), (6, 6)]) ∧
    (line_points 0 0 3 6
      = [(0, 0), (0, 1), (1, 2), (1, 3), (2, 4), (2, 5), (3, 6)]) ∧
    (line_points 3 3 (-3) (-3)
      = [(3, 3), (2, 2), (1, 1), (0, 0), (-1, -1), (-2, -2), (-3, -3)]) ∧
    ∀ x1 y1 x2 y2 : Int,
      (line_points x1 y1 x2 y2).head? = some (x1, y1) ∧
      (line_points x1 y1 x2 y2).getLast? = some (x2, y2) ∧
      (line_points x1 y1 x2 y2).count (x1, y1) = 1 ∧
      (line_points x1 y1 x2 y2).count (x2, y2) = 1 ∧
      (x1 = x2 ∧ y1 = y2 → line_points x1 y1 x2 y2 = [(x1, y1)]) := by
  refine ⟨by decide, by decide, by decide, fun x1 y1 x2 y2 => ?_⟩
  obtain ⟨hh, hl, hnd⟩ := line_points_spec x1 y1 x2 y2
  refine ⟨hh, hl,
    count_eq_one_of_nodup_mem hnd (List.mem_of_mem_head? (by rw [hh]; rfl)),
    count_eq_one_of_nodup_mem hnd (List.mem_of_getLast?_eq_some hl), ?_⟩
  rintro ⟨rfl, rfl⟩
  have hs : ¬((x1 - x1).natAbs < (y1 - y1).natAbs) := by omega
  simp only [line_points, if_neg hs]
  rw [if_neg (lt_irrefl x1)]
  rw [if_neg (lt_irrefl x1), show (x1 - x1).toNat = 0 by omega]
  rfl

/-- C3 witness: the general endpoint properties applied to the coincident
endpoints `(0, 0)` and `(0, 0)`. -/
theorem C3_line_points_bresenham_witness :
    line_points 0 0 0 0 = [(0, 0)] :=
  (C3_line_points_bresenham.2.2.2 0 0 0 0).2.2.2.2 ⟨rfl, rfl⟩

/-! ## Loads / render lemmas (for C9) -/

theorem setitemTup_ok_char (c : CanvasState) (x y : Nat) (ch : Char)
    (hx : x < c.width) (hy : y < c.height) :
    setitemTup (x : Int) (y : Int) (some (.pstr [ch])) c
      = ({ c with strDirty := true, strCache := none,
                  chars := update2 c.chars x y (some (.pstr [ch])) }, .ok ()) := by
  unfold setitemTup
  dsimp only [pyStrOf]
  rw [if_neg (by simp), if_neg (by simp),
    convertNegativeTupleKey_nat c x y hx hy]

theorem loadsLineLoop_spec (y : Nat) :
    ∀ (line : List Char) (x0 : Nat) (c : CanvasState),
      y < c.height → x0 + line.length ≤ c.width →
      (loadsLineLoop (y : Int) line x0 c).2 = .ok () ∧
      (loadsLineLoop (y : Int) line x0 c).1.width = c.width ∧
      (loadsLineLoop (y : Int) line x0 c).1.height = c.height ∧
      ∀ a b : Nat, (loadsLineLoop (y : Int) line x0 c).1.chars a b
        = if b = y ∧ x0 ≤ a ∧ a < x0 + line.length
          then some (.pstr [line.getD (a - x0) 'A'])
          else c.chars a b := by
  intro line
  induction line with
  | nil =>
    intro x0 c hy hfit
    refine ⟨rfl, rfl, rfl, fun a b => ?_⟩
    simp only [loadsLineLoop]
    rw [if_neg (by simp only [List.length_nil]; omega)]
  | cons v rest ih =>
    intro x0 c hy hfit
    have hx0 : x0 < c.width := by
      simp only [List.length_cons] at hfit
      omega
    unfold loadsLineLoop
    rw [if_neg (by omega), setitemTup_ok_char c x0 y v hx0 hy]
    dsimp only
    have hfit' : (x0 + 1) + rest.length ≤ c.width := by
      simp only [List.length_cons] at hfit
      omega
    obtain ⟨hok, hw, hh, hchars⟩ := ih (x0 + 1)
      { c with strDirty := true, strCache := none,
               chars := update2 c.chars x0 y (some (.pstr [v])) } hy hfit'
    refine ⟨hok, hw, hh, fun a b => ?_⟩
    rw [hchars a b]
    by_cases h1 : b = y ∧ x0 + 1 ≤ a ∧ a < x0 + 1 + rest.length
    · rw [if_pos h1, if_pos ⟨h1.1, by omega, by simp only [List.length_cons]; omega⟩]
      rw [show a - x0 = (a - (x0 + 1)) + 1 from by omega, List.getD_cons_succ]
    · rw [if_neg h1]
      dsimp only [update2]
      by_cases h2 : a = x0 ∧ b = y
      · rw [if_pos h2,
          if_pos (⟨h2.2, by omega, by simp only [List.length_cons]; omega⟩ :
            b = y ∧ x0 ≤ a ∧ a < x0 + (v :: rest).length)]
        rw [show a - x0 = 0 from by omega, List.getD_cons_zero]
      · rw [if_neg h2]
        by_cases h3 : b = y ∧ x0 ≤ a ∧ a < x0 + (v :: rest).length
        · exfalso
          have ha : a ≠ x0 := fun he => h2 ⟨he, h3.1⟩
          simp only [List.length_cons] at h3
          exact h1 ⟨h3.1, by omega, by omega⟩
        · rw [if_neg h3]

theorem loadsLinesLoop_spec :
    ∀ (ls : List (List Char)) (y0 : Nat) (c : CanvasState),
      y0 + ls.length ≤ c.height → (∀ l ∈ ls, l.length ≤ c.width) →
      (loadsLinesLoop ls y0 c).2 = .ok () ∧
      (loadsLinesLoop ls y0 c).1.width = c.width ∧
      (loadsLinesLoop ls y0 c).1.height = c.height ∧
      ∀ a b : Nat, (loadsLinesLoop ls y0 c).1.chars a b
        = if y0 ≤ b ∧ b < y0 + ls.length ∧ a < (ls.getD (b - y0) []).length
          then some (.pstr [(ls.getD (b - y0) []).getD a 'A'])
          else c.chars a b := by
  intro ls
  induction ls with
  | nil =>
    intro y0 c hfit hw
    refine ⟨rfl, rfl, rfl, fun a b => ?_⟩
    simp only [loadsLinesLoop]
    rw [if_neg (by simp only [List.length_nil, List.getD_nil]; omega)]
  | cons line rest ih =>
    intro y0 c hfit hw
    have hy0 : y0 < c.height := by
      simp only [List.length_cons] at hfit
      omega
    obtain ⟨hok, hwid, hhei, hchars⟩ := loadsLineLoop_spec y0 line 0 c hy0
      (by simpa using hw line (List.mem_cons_self line rest))
    rcases hres : loadsLineLoop ((y0 : Nat) : Int) line 0 c with ⟨c1, r⟩
    rw [hres] at hok hwid hhei hchars
    dsimp only at hok hwid hhei hchars
    subst hok
    unfold loadsLinesLoop
    rw [hres]
    dsimp only
    by_cases hbrk : c1.height ≤ y0 + 1
    · rw [if_pos hbrk]
      have hrest : rest = [] := by
        cases rest with
        | nil => rfl
        | cons hd tl =>
          exfalso
          rw [hhei] at hbrk
          simp only [List.length_cons] at hfit
          omega
      subst hrest
      refine ⟨rfl, hwid, hhei, fun a b => ?_⟩
      rw [hchars a b]
      by_cases hb : b = y0
      · subst hb
        have h0 : (([line] : List (List Char))).getD (b - b) [] = line := by
          rw [Nat.sub_self]
          rfl
        rw [h0]
        by_cases ha : a < line.length
        · rw [if_pos ⟨rfl, Nat.zero_le a, by simpa using ha⟩,
            if_pos ⟨le_refl b, by simp, ha⟩, Nat.sub_zero]
        · rw [if_neg (by omega), if_neg (by omega)]
      · rw [if_neg (by omega), if_neg (by omega)]
    · rw [if_neg hbrk]
      have hfit' : (y0 + 1) + rest.length ≤ c1.height := by
        rw [hhei]
        simp only [List.length_cons] at hfit
        omega
      have hw' : ∀ l ∈ rest, l.length ≤ c1.width := by
        intro l hl
        rw [hwid]
        exact hw l (List.mem_cons_of_mem line hl)
      obtain ⟨hok2, hwid2, hhei2, hchars2⟩ := ih (y0 + 1) c1 hfit' hw'
      refine ⟨hok2, by rw [hwid2, hwid], by rw [hhei2, hhei], fun a b => ?_⟩
      rw [hchars2 a b]
      by_cases h1 : y0 + 1 ≤ b ∧ b < y0 + 1 + rest.length ∧
          a < (rest.getD (b - (y0 + 1)) []).length
      · rw [if_pos h1]
        have hgd : ((line :: rest)).getD (b - y0) [] = rest.getD (b - (y0 + 1)) [] := by
          rw [show b - y0 = (b - (y0 + 1)) + 1 from by omega, List.getD_cons_succ]
        rw [if_pos (by
          rw [hgd]
          exact ⟨by omega, by simp only [List.length_cons]; omega, h1.2.2⟩)]
        rw [hgd]
      · rw [if_neg h1, hchars a b]
        by_cases h2 : b = y0 ∧ 0 ≤ a ∧ a < 0 + line.length
        · rw [if_pos h2]
          obtain ⟨hb, -, hal⟩ := h2
          subst hb
          have h0 : ((line :: rest)).getD (b - b) [] = line := by
            rw [Nat.sub_self]
            rfl
          rw [if_pos (by
            rw [h0]
            exact ⟨le_refl b, by simp only [List.length_cons]; omega, by omega⟩)]
          rw [h0, Nat.sub_zero]
        · rw [if_neg h2]
          by_cases h3 : y0 ≤ b ∧ b < y0 + (line :: rest).length ∧
              a < ((line :: rest).getD (b - y0) []).length
          · exfalso
            obtain ⟨h3a, h3b, h3c⟩ := h3
            by_cases hb0 : b = y0
            · subst hb0
              rw [show b - b = 0 from Nat.sub_self b, List.getD_cons_zero] at h3c
              exact h2 ⟨rfl, Nat.zero_le a, by omega⟩
            · rw [show b - y0 = (b - (y0 + 1)) + 1 from by omega,
                List.getD_cons_succ] at h3c
              simp only [List.length_cons] at h3b
              exact h1 ⟨by omega, by omega, h3c⟩
          · rw [if_neg h3]

theorem le_maxLen : ∀ (ls : List (List Char)) (l : List Char),
    l ∈ ls → l.length ≤ maxLen ls := by
  intro ls
  induction ls with
  | nil =>
    intro l hl
    exact absurd hl (List.not_mem_nil l)
  | cons a t ih =>
    intro l hl
    simp only [maxLen, List.map_cons, List.foldr_cons]
    rcases List.mem_cons.mp hl with rfl | h
    · exact Nat.le_max_left _ _
    · exact le_trans (ih l h) (Nat.le_max_right _ _)

theorem joinRow_singletons : ∀ cs : List Char,
    joinRow (cs.map (fun ch => .pstr [ch])) = .ok cs := by
  intro cs
  induction cs with
  | nil => rfl
  | cons a t ih =>
    simp only [List.map_cons, joinRow, ih, List.singleton_append]

theorem range_map_pad (l : List Char) (w : Nat) (hl : l.length ≤ w) :
    (List.range w).map (fun a => if a < l.length then l.getD a 'A' else ' ')
      = l ++ List.replicate (w - l.length) ' ' := by
  apply List.ext_getElem
  · simp
    omega
  · intro i h1 h2
    simp only [List.getElem_map, List.getElem_range]
    by_cases hi : i < l.length
    · rw [if_pos hi, List.getElem_append_left hi, List.getD_eq_getElem l 'A' hi]
    · rw [if_neg hi, List.getElem_append_right (by omega), List.getElem_replicate]

theorem renderRowsE_ok (c : CanvasState) (g : Nat → List Char) :
    ∀ ys : List Nat, (∀ y ∈ ys, renderRowE c y = .ok (g y)) →
      renderRowsE c ys = .ok (ys.map g) := by
  intro ys
  induction ys with
  | nil =>
    intro _
    rfl
  | cons a t ih =>
    intro hall
    simp only [renderRowsE, hall a (List.mem_cons_self a t),
      ih (fun y hy => hall y (List.mem_cons_of_mem a hy)), List.map_cons]

theorem range_map_pad_getD (ls : List (List Char)) (w : Nat) :
    (List.range ls.length).map
        (fun b => ls.getD b [] ++ List.replicate (w - (ls.getD b []).length) ' ')
      = ls.map (fun l => l ++ List.replicate (w - l.length) ' ') := by
  apply List.ext_getElem
  · simp
  · intro i h1 h2
    simp only [List.getElem_map, List.getElem_range]
    rw [List.getD_eq_getElem ls [] (by simpa using h1)]

/-- C9: building a canvas from preload text `T` with no explicit size
gives width = the maximum line length of `T` and height = its number of
lines, and `to_string()` returns `T` with each line right-padded with
spaces to that width, lines joined by single newlines with no trailing
newline.  The spec's concrete example `T = "ab\ncde"` is included. -/
theorem C9_preload_roundtrip :
    ((canvasFromLoads ("ab\ncde".toList)).width = 3 ∧
     (canvasFromLoads ("ab\ncde".toList)).height = 2 ∧
     (strOp (canvasFromLoads ("ab\ncde".toList))).2 = .ok (some ("ab \ncde".toList))) ∧
    ∀ t : List Char,
      (canvasFromLoads t).width = maxLen (splitNl t) ∧
      (canvasFromLoads t).height = (splitNl t).length ∧
      (strOp (canvasFromLoads t)).2 = .ok (some (List.intercalate ['\n']
        ((splitNl t).map (fun l =>
          l ++ List.replicate (maxLen (splitNl t) - l.length) ' ')))) := by
  refine ⟨⟨by decide, by decide, by decide⟩, fun t => ?_⟩
  obtain ⟨hok, hwid, hhei, hchars⟩ :=
    loadsLinesLoop_spec (splitNl t) 0
      (initCanvas (maxLen (splitNl t)) (splitNl t).length)
      (by simp [initCanvas]) (fun l hl => le_maxLen (splitNl t) l hl)
  refine ⟨hwid, hhei, ?_⟩
  have hchars0 : ∀ a b : Nat, (canvasFromLoads t).chars a b
      = if b < (splitNl t).length ∧ a < ((splitNl t).getD b []).length
        then some (.pstr [((splitNl t).getD b []).getD a 'A'])
        else none := by
    intro a b
    have hthis := hchars a b
    simp only [Nat.zero_add, Nat.sub_zero, Nat.zero_le, true_and] at hthis
    exact hthis
  have hrows : ∀ b ∈ List.range (splitNl t).length,
      renderRowE (canvasFromLoads t) b
        = .ok ((splitNl t).getD b [] ++
            List.replicate (maxLen (splitNl t) - ((splitNl t).getD b []).length) ' ') := by
    intro b hb
    have hbh : b < (splitNl t).length := List.mem_range.mp hb
    have hlen : ((splitNl t).getD b []).length ≤ maxLen (splitNl t) := by
      refine le_maxLen (splitNl t) _ ?_
      rw [List.getD_eq_getElem (splitNl t) [] hbh]
      exact List.getElem_mem hbh
    unfold renderRowE
    have hcw : (canvasFromLoads t).width = maxLen (splitNl t) := hwid
    rw [hcw]
    have hmapeq : (List.range (maxLen (splitNl t))).map
        (fun x => ((canvasFromLoads t).chars x b).getD (.pstr [' ']))
        = ((List.range (maxLen (splitNl t))).map
            (fun a => if a < ((splitNl t).getD b []).length
              then ((splitNl t).getD b []).getD a 'A' else ' ')).map
          (fun ch => (.pstr [ch] : PyVal)) := by
      rw [List.map_map]
      apply List.map_congr_left
      intro a _
      rw [Function.comp_apply, hchars0 a b]
      by_cases hab : a < ((splitNl t).getD b []).length
      · rw [if_pos ⟨hbh, hab⟩, if_pos hab, Option.getD_some]
      · rw [if_neg (fun hc => hab hc.2), if_neg hab, Option.getD_none]
    rw [hmapeq, joinRow_singletons, range_map_pad _ _ hlen]
  have hd : (canvasFromLoads t).strDirty = true := rfl
  unfold strOp
  rw [if_neg (by rw [hd]; simp)]
  have hre : renderE (canvasFromLoads t) = .ok (List.intercalate ['\n']
      ((splitNl t).map (fun l =>
        l ++ List.replicate (maxLen (splitNl t) - l.length) ' '))) := by
    unfold renderE
    have hch : (canvasFromLoads t).height = (splitNl t).length := hhei
    rw [hch, renderRowsE_ok (canvasFromLoads t) _ (List.range (splitNl t).length) hrows,
      range_map_pad_getD]
  rw [hre]

/-! ## Slice-loop bounds lemmas (for C4) -/

theorem convertNegativeTupleKey_ok_facts {c : CanvasState} {x y : Int}
    {nx ny : Nat} (h : convertNegativeTupleKey c x y = .ok (nx, ny)) :
    nx < c.width ∧ ny < c.height ∧ 0 < c.width ∧ 0 < c.height := by
  unfold convertNegativeTupleKey at h
  split at h
  · cases h
  · split at h
    · cases h
    · rename_i hx hy
      push_neg at hx hy
      simp only [Except.ok.injEq, Prod.mk.injEq] at h
      obtain ⟨hx1, hy1⟩ := h
      subst hx1
      subst hy1
      refine ⟨?_, ?_, by omega, by omega⟩
      · split <;> omega
      · split <;> omega

theorem pyRange3_mem_pos {a b s z : Int} (hs : 0 < s) (hz : z ∈ pyRange3 a b s) :
    a ≤ z ∧ z < b := by
  unfold pyRange3 pyRangeLen at hz
  rw [if_pos hs] at hz
  rcases List.mem_map.mp hz with ⟨k, hk, rfl⟩
  have hk' := List.mem_range.mp hk
  have h1 : (k : Int) + 1 ≤ (b - a + s - 1) / s := by omega
  have h3 : (b - a + s - 1) / s * s ≤ b - a + s - 1 :=
    Int.ediv_mul_le _ (by omega)
  have h4 : ((k : Int) + 1) * s ≤ (b - a + s - 1) / s * s :=
    mul_le_mul_of_nonneg_right h1 (le_of_lt hs)
  have h5 : ((k : Int) + 1) * s = s * k + s := by ring
  have h6 : 0 ≤ s * (k : Int) := mul_nonneg (le_of_lt hs) (by positivity)
  omega

theorem pyRange3_mem_neg {a b s z : Int} (hs : s < 0) (hz : z ∈ pyRange3 a b s) :
    b < z ∧ z ≤ a := by
  unfold pyRange3 pyRangeLen at hz
  rw [if_neg (by omega), if_pos hs] at hz
  rcases List.mem_map.mp hz with ⟨k, hk, rfl⟩
  have hk' := List.mem_range.mp hk
  have h1 : (k : Int) + 1 ≤ (a - b + -s - 1) / (-s) := by omega
  have h3 : (a - b + -s - 1) / (-s) * (-s) ≤ a - b + -s - 1 :=
    Int.ediv_mul_le _ (by omega)
  have h4 : ((k : Int) + 1) * (-s) ≤ (a - b + -s - 1) / (-s) * (-s) :=
    mul_le_mul_of_nonneg_right h1 (by omega)
  have h5 : ((k : Int) + 1) * (-s) = -(s * k) - s := by ring
  have h6 : s * (k : Int) ≤ 0 :=
    mul_nonpos_of_nonpos_of_nonneg (le_of_lt hs) (by positivity)
  omega

theorem directSet_ok {c : CanvasState} {ix iy : Int} (v : Option PyVal)
    (hx : -(c.width : Int) ≤ ix ∧ ix < c.width)
    (hy : -(c.height : Int) ≤ iy ∧ iy < c.height) :
    (directSet ix iy v c).2 = .ok () ∧
    (directSet ix iy v c).1.width = c.width ∧
    (directSet ix iy v c).1.height = c.height ∧
    (directSet ix iy v c).1.strDirty = c.strDirty ∧
    (directSet ix iy v c).1.strCache = c.strCache := by
  have hxe : pyListIndex c.width ix
      = .ok (if 0 ≤ ix then ix.toNat else ((c.width : Int) + ix).toNat) := by
    unfold pyListIndex
    by_cases h0 : 0 ≤ ix
    · rw [if_pos ⟨h0, hx.2⟩, if_pos h0]
    · rw [if_neg (by omega), if_pos (by omega), if_neg h0]
  have hye : pyListIndex c.height iy
      = .ok (if 0 ≤ iy then iy.toNat else ((c.height : Int) + iy).toNat) := by
    unfold pyListIndex
    by_cases h0 : 0 ≤ iy
    · rw [if_pos ⟨h0, hy.2⟩, if_pos h0]
    · rw [if_neg (by omega), if_pos (by omega), if_neg h0]
  unfold directSet
  rw [hxe, hye]
  exact ⟨rfl, rfl, rfl, rfl, rfl⟩

/-- Generic invariant runner: if every step (for elements of the list)
succeeds from a `P`-state and preserves `P`, the whole sequence succeeds
and preserves `P`. -/
theorem runSeq_ok_inv {α : Type} (f : α → CanvasState → CanvasState × Except PyErr Unit)
    (P : CanvasState → Prop) :
    ∀ (l : List α) (c : CanvasState),
      (∀ a ∈ l, ∀ c', P c' → (f a c').2 = .ok () ∧ P (f a c').1) →
      P c → (runSeq f l c).2 = .ok () ∧ P (runSeq f l c).1 := by
  intro l
  induction l with
  | nil =>
    intro c _ hc
    exact ⟨rfl, hc⟩
  | cons a rest ih =>
    intro c hf hc
    obtain ⟨hok, hP⟩ := hf a (List.mem_cons_self a rest) c hc
    rcases hres : f a c with ⟨c1, r⟩
    rw [hres] at hok hP
    dsimp only at hok hP
    subst hok
    unfold runSeq
    rw [hres]
    exact ih c1 (fun a' ha' => hf a' (List.mem_cons_of_mem a ha')) hP

/-- The nested slice loop of `__delitem__`/`__setitem__` never raises:
every index produced by the normalized ranges is within Python's
wraparound bounds for the direct `_chars[ix][iy]` access, so only the
cells change. -/
theorem sliceLoop_ok {c : CanvasState} {x1 y1 x2 y2 xs ys : Int}
    (v : Option PyVal)
    (hx1 : 0 ≤ x1 ∧ x1 < c.width) (hy1 : 0 ≤ y1 ∧ y1 < c.height)
    (hx2 : -(c.width : Int) ≤ x2 ∧ x2 ≤ c.width)
    (hy2 : -(c.height : Int) ≤ y2 ∧ y2 ≤ c.height)
    (hxs : xs ≠ 0) (hys : pyRange3 x1 x2 xs ≠ [] → ys ≠ 0) :
    (forCells (pyRange3 x1 x2 xs) (pyRange3 y1 y2 ys)
        (fun ix iy => directSet ix iy v) c).2 = .ok () ∧
    (forCells (pyRange3 x1 x2 xs) (pyRange3 y1 y2 ys)
        (fun ix iy => directSet ix iy v) c).1.width = c.width ∧
    (forCells (pyRange3 x1 x2 xs) (pyRange3 y1 y2 ys)
        (fun ix iy => directSet ix iy v) c).1.height = c.height ∧
    (forCells (pyRange3 x1 x2 xs) (pyRange3 y1 y2 ys)
        (fun ix iy => directSet ix iy v) c).1.strDirty = c.strDirty ∧
    (forCells (pyRange3 x1 x2 xs) (pyRange3 y1 y2 ys)
        (fun ix iy => directSet ix iy v) c).1.strCache = c.strCache := by
  rcases hemp : pyRange3 x1 x2 xs with _ | ⟨z, zs⟩
  · exact ⟨rfl, rfl, rfl, rfl, rfl⟩
  · rw [← hemp]
    have hys' : ys ≠ 0 := hys (by rw [hemp]; simp)
    have hstep : ∀ ix ∈ pyRange3 x1 x2 xs, ∀ st,
        (st.width = c.width ∧ st.height = c.height ∧
         st.strDirty = c.strDirty ∧ st.strCache = c.strCache) →
        (runSeq (fun iy => directSet ix iy v) (pyRange3 y1 y2 ys) st).2 = .ok () ∧
        ((runSeq (fun iy => directSet ix iy v) (pyRange3 y1 y2 ys) st).1.width = c.width ∧
         (runSeq (fun iy => directSet ix iy v) (pyRange3 y1 y2 ys) st).1.height = c.height ∧
         (runSeq (fun iy => directSet ix iy v) (pyRange3 y1 y2 ys) st).1.strDirty = c.strDirty ∧
         (runSeq (fun iy => directSet ix iy v) (pyRange3 y1 y2 ys) st).1.strCache = c.strCache) := by
      intro ix hix st hst
      have hxb : -(c.width : Int) ≤ ix ∧ ix < c.width := by
        rcases lt_trichotomy xs 0 with h | h | h
        · have := pyRange3_mem_neg h hix
          omega
        · exact absurd h hxs
        · have := pyRange3_mem_pos h hix
          omega
      refine runSeq_ok_inv _ (fun st' => st'.width = c.width ∧ st'.height = c.height ∧
        st'.strDirty = c.strDirty ∧ st'.strCache = c.strCache)
        (pyRange3 y1 y2 ys) st ?_ hst
      intro iy hiy st' hst'
      have hyb : -(c.height : Int) ≤ iy ∧ iy < c.height := by
        rcases lt_trichotomy ys 0 with h | h | h
        · have := pyRange3_mem_neg h hiy
          omega
        · exact absurd h hys'
        · have := pyRange3_mem_pos h hiy
          omega
      have hd := directSet_ok (c := st') v (by rw [hst'.1]; exact hxb)
        (by rw [hst'.2.1]; exact hyb)
      exact ⟨hd.1, by rw [hd.2.1, hst'.1], by rw [hd.2.2.1, hst'.2.1],
        by rw [hd.2.2.2.1, hst'.2.2.1], by rw [hd.2.2.2.2, hst'.2.2.2]⟩
    have main := runSeq_ok_inv
      (fun ix => runSeq (fun iy => directSet ix iy v) (pyRange3 y1 y2 ys))
      (fun st => st.width = c.width ∧ st.height = c.height ∧
        st.strDirty = c.strDirty ∧ st.strCache = c.strCache)
      (pyRange3 x1 x2 xs) c hstep ⟨rfl, rfl, rfl, rfl⟩
    exact ⟨main.1, main.2.1, main.2.2.1, main.2.2.2.1, main.2.2.2.2⟩

theorem normalizeKeySliceCore_ok_bounds {c : CanvasState} {a1 b1 a2 b2 s1 s2 : Int}
    {x1 y1 x2 y2 xs ys : Int}
    (h : normalizeKeySliceCore c a1 b1 a2 b2 s1 s2 = .ok (x1, y1, x2, y2, xs, ys)) :
    0 ≤ x1 ∧ x1 < c.width ∧ 0 ≤ y1 ∧ y1 < c.height ∧
    -(c.width : Int) ≤ x2 ∧ x2 ≤ c.width ∧
    -(c.height : Int) ≤ y2 ∧ y2 ≤ c.height := by
  unfold normalizeKeySliceCore at h
  rcases hc1 : convertNegativeTupleKey c a1 b1 with e | ⟨nx1, ny1⟩ <;>
    rw [hc1] at h <;> dsimp only at h
  · cases h
  · have hf1 := convertNegativeTupleKey_ok_facts hc1
    split at h
    case isTrue hA =>
      rcases hc2 : convertNegativeTupleKey c a2 b2 with e | ⟨nx2, ny2⟩ <;>
        rw [hc2] at h <;> dsimp only at h
      · cases h
      · have hf2 := convertNegativeTupleKey_ok_facts hc2
        simp only [Except.ok.injEq, Prod.mk.injEq] at h
        obtain ⟨e1, e2, e3, e4, -⟩ := h
        subst e1
        subst e2
        subst e3
        subst e4
        exact ⟨by omega, by omega, by omega, by omega, by omega, by omega,
          by omega, by omega⟩
    case isFalse hA =>
      split at h
      case isTrue hB =>
        rcases hc2 : convertNegativeTupleKey c a2 0 with e | ⟨nx2, d⟩ <;>
          rw [hc2] at h <;> dsimp only at h
        · cases h
        · have hf2 := convertNegativeTupleKey_ok_facts hc2
          simp only [Except.ok.injEq, Prod.mk.injEq] at h
          obtain ⟨e1, e2, e3, e4, -⟩ := h
          subst e1
          subst e2
          subst e3
          subst e4
          exact ⟨by omega, by omega, by omega, by omega, by omega, by omega,
            by omega, by omega⟩
      case isFalse hB =>
        split at h
        case isTrue hC =>
          rcases hc2 : convertNegativeTupleKey c 0 b2 with e | ⟨d, ny2⟩ <;>
            rw [hc2] at h <;> dsimp only at h
          · cases h
          · have hf2 := convertNegativeTupleKey_ok_facts hc2
            simp only [Except.ok.injEq, Prod.mk.injEq] at h
            obtain ⟨e1, e2, e3, e4, -⟩ := h
            subst e1
            subst e2
            subst e3
            subst e4
            exact ⟨by omega, by omega, by omega, by omega, by omega, by omega,
              by omega, by omega⟩
        case isFalse hC =>
          simp only [Except.ok.injEq, Prod.mk.injEq] at h
          obtain ⟨e1, e2, e3, e4, -⟩ := h
          subst e1
          subst e2
          subst e3
          subst e4
          exact ⟨by omega, by omega, by omega, by omega, by omega, by omega,
            by omega, by omega⟩

theorem normalizeKeySlice_ok_bounds {c : CanvasState} {k : SliceKey}
    {x1 y1 x2 y2 xs ys : Int}
    (h : normalizeKeySlice c k = .ok (x1, y1, x2, y2, xs, ys)) :
    0 ≤ x1 ∧ x1 < c.width ∧ 0 ≤ y1 ∧ y1 < c.height ∧
    -(c.width : Int) ≤ x2 ∧ x2 ≤ c.width ∧
    -(c.height : Int) ≤ y2 ∧ y2 ≤ c.height := by
  simp only [normalizeKeySlice] at h
  exact normalizeKeySliceCore_ok_bounds h

theorem setitemTup_cases (kx ky : Int) (v : Option PyVal) (c : CanvasState) :
    (∃ e, setitemTup kx ky v c = (c, .error e)) ∨
    ((setitemTup kx ky v c).2 = .ok () ∧
      (setitemTup kx ky v c).1.strDirty = true ∧
      (setitemTup kx ky v c).1.width = c.width ∧
      (setitemTup kx ky v c).1.height = c.height) := by
  unfold setitemTup
  cases v with
  | none =>
    dsimp only
    rcases hc : convertNegativeTupleKey c kx ky with e | ⟨x, y⟩
    · exact .inl ⟨e, rfl⟩
    · exact .inr ⟨rfl, rfl, rfl, rfl⟩
  | some v =>
    dsimp only
    split
    · exact .inl ⟨_, rfl⟩
    · split
      · exact .inl ⟨_, rfl⟩
      · rcases hc : convertNegativeTupleKey c kx ky with e | ⟨x, y⟩
        · exact .inl ⟨e, rfl⟩
        · exact .inr ⟨rfl, rfl, rfl, rfl⟩

theorem delitemTup_cases (kx ky : Int) (c : CanvasState) :
    (∃ e, delitemTup kx ky c = (c, .error e)) ∨
    ((delitemTup kx ky c).2 = .ok () ∧
      (delitemTup kx ky c).1.strDirty = true ∧
      (delitemTup kx ky c).1.width = c.width ∧
      (delitemTup kx ky c).1.height = c.height) := by
  unfold delitemTup
  rcases hc : convertNegativeTupleKey c kx ky with e | ⟨x, y⟩
  · exact .inl ⟨e, rfl⟩
  · exact .inr ⟨rfl, rfl, rfl, rfl⟩

theorem delitemSlice_error_state {k : SliceKey} {c : CanvasState} {e : PyErr}
    (h : (delitemSlice k c).2 = .error e) :
    (delitemSlice k c).1 = { c with strDirty := true, strCache := none } := by
  unfold delitemSlice at h ⊢
  dsimp only at h ⊢
  rcases hn : normalizeKeySlice { c with strDirty := true, strCache := none } k
    with e' | ⟨x1, y1, x2, y2, xs, ys⟩ <;> rw [hn] at h
  dsimp only at h ⊢
  by_cases hxs : xs = 0
  · rw [if_pos hxs] at h ⊢
  · rw [if_neg hxs] at h ⊢
    by_cases hne : pyRange3 x1 x2 xs ≠ [] ∧ ys = 0
    · rw [if_pos hne] at h ⊢
    · rw [if_neg hne] at h ⊢
      exfalso
      obtain ⟨hb1, hb2, hb3, hb4, hb5, hb6, hb7, hb8⟩ :=
        normalizeKeySlice_ok_bounds hn
      have hloop := sliceLoop_ok
        (c := { c with strDirty := true, strCache := none }) none
        ⟨hb1, hb2⟩ ⟨hb3, hb4⟩ ⟨hb5, hb6⟩ ⟨hb7, hb8⟩ hxs
        (fun hne' => by
          by_contra hy0
          exact hne ⟨hne', hy0⟩)
      rw [hloop.1] at h
      cases h

theorem setitemSlice_error_state {k : SliceKey} {v : PyVal} {c : CanvasState}
    {e : PyErr} (h : (setitemSlice k (some v) c).2 = .error e) :
    (setitemSlice k (some v) c).1 = c ∨
    ((setitemSlice k (some v) c).1
        = { c with strDirty := true, strCache := none } ∧
      e = .valueErrorZeroStep) := by
  unfold setitemSlice at h ⊢
  dsimp only at h ⊢
  rcases hn : normalizeKeySlice c k
    with e' | ⟨x1, y1, x2, y2, xs, ys⟩ <;> rw [hn] at h
  · exact .inl rfl
  · dsimp only at h ⊢
    by_cases hxs : xs = 0
    · rw [if_pos hxs] at h ⊢
      simp only [Except.error.injEq] at h
      exact .inr ⟨rfl, h.symm⟩
    · rw [if_neg hxs] at h ⊢
      by_cases hne : pyRange3 x1 x2 xs ≠ [] ∧ ys = 0
      · rw [if_pos hne] at h ⊢
        simp only [Except.error.injEq] at h
        exact .inr ⟨rfl, h.symm⟩
      · rw [if_neg hne] at h ⊢
        exfalso
        obtain ⟨hb1, hb2, hb3, hb4, hb5, hb6, hb7, hb8⟩ :=
          normalizeKeySlice_ok_bounds hn
        have hloop := sliceLoop_ok
          (c := { c with strDirty := true, strCache := none }) (some v)
          ⟨hb1, hb2⟩ ⟨hb3, hb4⟩ ⟨hb5, hb6⟩ ⟨hb7, hb8⟩ hxs
          (fun hne' => by
            by_contra hy0
            exact hne ⟨hne', hy0⟩)
        rw [hloop.1] at h
        cases h

/-- C4 (amended): a canvas operation that raises always leaves the cells
unchanged.  Tuple-key `set` and `delete` leave the whole state (cache flag
and cached string included) unchanged on any error; slice-key `delete`
(and hence slice-key `set` with value `None`, which delegates to it)
always has the dirty flag set and the cache dropped when it raises,
because it mutates the cache state before validating; slice-key `set`
with a non-`None` value leaves the state unchanged when key validation
fails, and has the flag set when the zero-step range error fires after
validation.  (`__getitem__` never assigns to `self`; its embedding is a
pure function.) -/
theorem C4_failed_ops_leave_cells_unchanged :
    (∀ (c : CanvasState) (kx ky : Int) (v : Option PyVal) (e : PyErr),
      (setitemTup kx ky v c).2 = .error e → (setitemTup kx ky v c).1 = c) ∧
    (∀ (c : CanvasState) (kx ky : Int) (e : PyErr),
      (delitemTup kx ky c).2 = .error e → (delitemTup kx ky c).1 = c) ∧
    (∀ (c : CanvasState) (k : SliceKey) (e : PyErr),
      (delitemSlice k c).2 = .error e →
        (delitemSlice k c).1.chars = c.chars ∧
        (delitemSlice k c).1 = { c with strDirty := true, strCache := none }) ∧
    (∀ (c : CanvasState) (k : SliceKey) (v : PyVal) (e : PyErr),
      (setitemSlice k (some v) c).2 = .error e →
        (setitemSlice k (some v) c).1.chars = c.chars ∧
        ((setitemSlice k (some v) c).1 = c ∨
         (setitemSlice k (some v) c).1
           = { c with strDirty := true, strCache := none })) ∧
    (∀ (c : CanvasState) (k : SliceKey), setitemSlice k none c = delitemSlice k c) ∧
    (∀ (c : CanvasState) (i : Int) (v : Option PyVal),
      (setitemKey (.int i) v c).1 = c ∧ (delitemKey (.int i) c).1 = c) := by
  refine ⟨?_, ?_, ?_, ?_, fun c k => rfl, fun c i v => ⟨rfl, rfl⟩⟩
  · intro c kx ky v e h
    rcases setitemTup_cases kx ky v c with ⟨e', hc⟩ | ⟨hok, -⟩
    · rw [hc]
    · rw [hok] at h
      cases h
  · intro c kx ky e h
    rcases delitemTup_cases kx ky c with ⟨e', hc⟩ | ⟨hok, -⟩
    · rw [hc]
    · rw [hok] at h
      cases h
  · intro c k e h
    have hst := delitemSlice_error_state h
    rw [hst]
    exact ⟨rfl, rfl⟩
  · intro c k v e h
    rcases setitemSlice_error_state h with hst | ⟨hst, -⟩
    · rw [hst]
      exact ⟨rfl, .inl rfl⟩
    · rw [hst]
      exact ⟨rfl, .inr rfl⟩

/-- C4 witness: an out-of-range tuple `set` on a `2 × 2` canvas leaves the
state untouched, and an out-of-range slice `delete` on the same canvas
leaves the cells untouched with only the cache state mutated. -/
theorem C4_failed_ops_leave_cells_unchanged_witness :
    (setitemTup 99 0 (some (.pstr ['x'])) (initCanvas 2 2)).1 = initCanvas 2 2 ∧
    (delitemSlice { start := some (0, 0), stop := some (5, 5), step := none }
        (initCanvas 2 2)).1
      = { initCanvas 2 2 with strDirty := true, strCache := none } :=
  ⟨C4_failed_ops_leave_cells_unchanged.1 (initCanvas 2 2) 99 0
      (some (.pstr ['x'])) .outOfRange (by decide),
   (C4_failed_ops_leave_cells_unchanged.2.2.1 (initCanvas 2 2)
      { start := some (0, 0), stop := some (5, 5), step := none }
      .outOfRange (by decide)).2⟩

/-! ## Dirty-flag lemmas (for C6) -/

theorem directSet_strDirty (ix iy : Int) (v : Option PyVal) (c : CanvasState) :
    (directSet ix iy v c).1.strDirty = c.strDirty := by
  unfold directSet
  rcases h1 : pyListIndex c.width ix with e | a
  · rfl
  · rcases h2 : pyListIndex c.height iy with e | b
    · rfl
    · rfl

theorem runSeq_dirty_pres {α : Type} (f : α → CanvasState → CanvasState × Except PyErr Unit)
    (hf : ∀ a c, c.strDirty = true → (f a c).1.strDirty = true) :
    ∀ (l : List α) (c : CanvasState), c.strDirty = true →
      (runSeq f l c).1.strDirty = true := by
  intro l
  induction l with
  | nil =>
    intro c h
    exact h
  | cons a rest ih =>
    intro c h
    have hd := hf a c h
    unfold runSeq
    rcases hr : f a c with ⟨c1, r⟩
    rw [hr] at hd
    rcases r with e | u
    · exact hd
    · exact ih c1 hd

theorem runSeq_ok_dirty {α : Type} (f : α → CanvasState → CanvasState × Except PyErr Unit)
    (hf1 : ∀ a c, (f a c).2 = .ok () → (f a c).1.strDirty = true)
    (hf2 : ∀ a c, c.strDirty = true → (f a c).1.strDirty = true) :
    ∀ (l : List α) (c : CanvasState), l ≠ [] → (runSeq f l c).2 = .ok () →
      (runSeq f l c).1.strDirty = true := by
  intro l
  cases l with
  | nil =>
    intro c h
    exact absurd rfl h
  | cons a rest =>
    intro c _ hok
    unfold runSeq at hok ⊢
    rcases hr : f a c with ⟨c1, r⟩
    rw [hr] at hok
    rcases r with e | u
    · simp at hok
    · have hd1 := hf1 a c (by rw [hr])
      rw [hr] at hd1
      exact runSeq_dirty_pres f hf2 rest c1 hd1

theorem runSeq_dirtyOrId {α : Type} (f : α → CanvasState → CanvasState × Except PyErr Unit)
    (hf1 : ∀ a c, (f a c).1.strDirty = true ∨ (f a c).1 = c)
    (hf2 : ∀ a c, c.strDirty = true → (f a c).1.strDirty = true) :
    ∀ (l : List α) (c : CanvasState),
      (runSeq f l c).1.strDirty = true ∨ (runSeq f l c).1 = c := by
  intro l
  induction l with
  | nil =>
    intro c
    exact .inr rfl
  | cons a rest ih =>
    intro c
    have hone := hf1 a c
    unfold runSeq
    rcases hr : f a c with ⟨c1, r⟩
    rw [hr] at hone
    rcases r with e | u
    · exact hone
    · rcases hone with hd | hid
      · exact .inl (runSeq_dirty_pres f hf2 rest c1 hd)
      · rcases ih c1 with h2 | h2
        · exact .inl h2
        · exact .inr (h2.trans hid)

theorem pyRange3_pos_ne_nil {a b : Int} (h : a < b) : pyRange3 a b 1 ≠ [] := by
  unfold pyRange3 pyRangeLen
  rw [if_pos (by omega)]
  intro hcon
  have hl := congrArg List.length hcon
  simp only [List.length_map, List.length_range, List.length_nil] at hl
  omega

theorem pyRange3_downTo_ne_nil {a b : Int} (h : b < a) : pyRange3 a b (-1) ≠ [] := by
  unfold pyRange3 pyRangeLen
  rw [if_neg (by omega), if_pos (by omega)]
  intro hcon
  have hl := congrArg List.length hcon
  simp only [List.length_map, List.length_range, List.length_nil, neg_neg] at hl
  omega

theorem setitemTup_dirty_pres (kx ky : Int) (v : Option PyVal) (c : CanvasState)
    (h : c.strDirty = true) : (setitemTup kx ky v c).1.strDirty = true := by
  rcases setitemTup_cases kx ky v c with ⟨e, hc⟩ | ⟨-, hd, -, -⟩
  · rw [hc]
    exact h
  · exact hd

theorem setitemTup_ok_dirty (kx ky : Int) (v : Option PyVal) (c : CanvasState)
    (h : (setitemTup kx ky v c).2 = .ok ()) :
    (setitemTup kx ky v c).1.strDirty = true := by
  rcases setitemTup_cases kx ky v c with ⟨e, hc⟩ | ⟨-, hd, -, -⟩
  · rw [hc] at h
    cases h
  · exact hd

theorem delitemTup_dirty_pres (kx ky : Int) (c : CanvasState)
    (h : c.strDirty = true) : (delitemTup kx ky c).1.strDirty = true := by
  rcases delitemTup_cases kx ky c with ⟨e, hc⟩ | ⟨-, hd, -, -⟩
  · rw [hc]
    exact h
  · exact hd

theorem delitemTup_ok_dirty (kx ky : Int) (c : CanvasState)
    (h : (delitemTup kx ky c).2 = .ok ()) :
    (delitemTup kx ky c).1.strDirty = true := by
  rcases delitemTup_cases kx ky c with ⟨e, hc⟩ | ⟨-, hd, -, -⟩
  · rw [hc] at h
    cases h
  · exact hd

theorem delitemSlice_dirty (k : SliceKey) (c : CanvasState) :
    (delitemSlice k c).1.strDirty = true := by
  unfold delitemSlice
  dsimp only
  rcases hn : normalizeKeySlice { c with strDirty := true, strCache := none } k
    with e' | ⟨x1, y1, x2, y2, xs, ys⟩
  · rfl
  · dsimp only
    by_cases hxs : xs = 0
    · rw [if_pos hxs]
    · rw [if_neg hxs]
      by_cases hne : pyRange3 x1 x2 xs ≠ [] ∧ ys = 0
      · rw [if_pos hne]
      · rw [if_neg hne]
        unfold forCells
        refine runSeq_dirty_pres _ ?_ _ _ rfl
        intro x st hst
        refine runSeq_dirty_pres _ ?_ _ _ hst
        intro y st' hst'
        rw [directSet_strDirty]
        exact hst'

theorem setitemSlice_cases (k : SliceKey) (v : Option PyVal) (c : CanvasState) :
    (setitemSlice k v c).1.strDirty = true ∨
    ∃ e, setitemSlice k v c = (c, .error e) := by
  cases v with
  | none => exact .inl (delitemSlice_dirty k c)
  | some v =>
    unfold setitemSlice
    dsimp only
    rcases hn : normalizeKeySlice c k with e' | ⟨x1, y1, x2, y2, xs, ys⟩
    · exact .inr ⟨e', rfl⟩
    · dsimp only
      by_cases hxs : xs = 0
      · rw [if_pos hxs]
        exact .inl rfl
      · rw [if_neg hxs]
        by_cases hne : pyRange3 x1 x2 xs ≠ [] ∧ ys = 0
        · rw [if_pos hne]
          exact .inl rfl
        · rw [if_neg hne]
          left
          unfold forCells
          refine runSeq_dirty_pres _ ?_ _ _ rfl
          intro x st hst
          refine runSeq_dirty_pres _ ?_ _ _ hst
          intro y st' hst'
          rw [directSet_strDirty]
          exact hst'

theorem forCells_ok_dirty (xs ys : List Int)
    (f : Int → Int → CanvasState → CanvasState × Except PyErr Unit)
    (hf1 : ∀ x y st, (f x y st).2 = .ok () → (f x y st).1.strDirty = true)
    (hf2 : ∀ x y st, st.strDirty = true → (f x y st).1.strDirty = true)
    (hxs : xs ≠ []) (hys : ys ≠ []) (c : CanvasState)
    (hok : (forCells xs ys f c).2 = .ok ()) :
    (forCells xs ys f c).1.strDirty = true := by
  unfold forCells at hok ⊢
  refine runSeq_ok_dirty _ ?_ ?_ xs c hxs hok
  · intro a st h'
    exact runSeq_ok_dirty _ (fun b st' => hf1 a b st') (fun b st' => hf2 a b st')
      ys st hys h'
  · intro a st h'
    exact runSeq_dirty_pres _ (fun b st' => hf2 a b st') ys st h'

theorem forCells_dirty_pres (xs ys : List Int)
    (f : Int → Int → CanvasState → CanvasState × Except PyErr Unit)
    (hf2 : ∀ x y st, st.strDirty = true → (f x y st).1.strDirty = true)
    (c : CanvasState) (h : c.strDirty = true) :
    (forCells xs ys f c).1.strDirty = true := by
  unfold forCells
  refine runSeq_dirty_pres _ ?_ xs c h
  intro a st h'
  exact runSeq_dirty_pres _ (fun b st' => hf2 a b st') ys st h'

theorem fillOp_ok_dirty (char : Option PyVal) (c : CanvasState)
    (hw : 1 ≤ c.width) (hh : 1 ≤ c.height)
    (h : (fillOp char c).2 = .ok ()) : (fillOp char c).1.strDirty = true := by
  unfold fillOp at h ⊢
  cases char with
  | none =>
    exact forCells_ok_dirty _ _ _
      (fun x y st h' => setitemTup_ok_dirty x y none st h')
      (fun x y st h' => setitemTup_dirty_pres x y none st h')
      (pyRange3_pos_ne_nil (by omega)) (pyRange3_pos_ne_nil (by omega)) c h
  | some v =>
    dsimp only at h ⊢
    by_cases hv : (pyStrOf v).length ≠ 1
    · rw [if_pos hv] at h
      cases h
    · rw [if_neg hv] at h ⊢
      exact forCells_ok_dirty _ _ _
        (fun x y st h' => setitemTup_ok_dirty x y _ st h')
        (fun x y st h' => setitemTup_dirty_pres x y _ st h')
        (pyRange3_pos_ne_nil (by omega)) (pyRange3_pos_ne_nil (by omega)) c h

theorem clearOp_ok_dirty (c : CanvasState) (hw : 1 ≤ c.width) (hh : 1 ≤ c.height)
    (h : (clearOp c).2 = .ok ()) : (clearOp c).1.strDirty = true := by
  unfold clearOp at h ⊢
  exact fillOp_ok_dirty none c hw hh h

theorem copyStep_ok_dirty (dx dy x y : Int) (st : CanvasState)
    (h : (match getitemTup st x y with
          | Except.error e => (st, Except.error e)
          | Except.ok v => setitemTup (x + dx) (y + dy) v st).2 = .ok ()) :
    (match getitemTup st x y with
     | Except.error e => (st, Except.error e)
     | Except.ok v => setitemTup (x + dx) (y + dy) v st).1.strDirty = true := by
  rcases hg : getitemTup st x y with e | v <;> rw [hg] at h
  · simp at h
  · exact setitemTup_ok_dirty _ _ v st h

theorem copyStep_dirty_pres (dx dy x y : Int) (st : CanvasState)
    (h : st.strDirty = true) :
    (match getitemTup st x y with
     | Except.error e => (st, Except.error e)
     | Except.ok v => setitemTup (x + dx) (y + dy) v st).1.strDirty = true := by
  rcases hg : getitemTup st x y with e | v
  · exact h
  · exact setitemTup_dirty_pres _ _ v st h

theorem shiftRange_ne_nil {n off : Int} (hn : 1 ≤ n) (hoff : off < n) :
    (if 0 < off then pyRange3 (n - 1 - off) (-1) (-1)
     else pyRange3 0 (n - off) 1) ≠ [] := by
  by_cases hp : 0 < off
  · rw [if_pos hp]
    exact pyRange3_downTo_ne_nil (by omega)
  · rw [if_neg hp]
    exact pyRange3_pos_ne_nil (by omega)

theorem shiftOp_ok_dirty (dx dy : Int) (c : CanvasState) (hw : 1 ≤ c.width)
    (hh : 1 ≤ c.height) (h : (shiftOp dx dy c).2 = .ok ()) :
    (shiftOp dx dy c).1.strDirty = true := by
  unfold shiftOp at h ⊢
  by_cases hcut : dx ≥ (c.width : Int) ∨ dx ≤ -(c.width : Int) ∨
      dy ≥ (c.height : Int) ∨ dy ≤ -(c.height : Int)
  · rw [if_pos hcut] at h ⊢
    exact clearOp_ok_dirty c hw hh h
  · rw [if_neg hcut] at h ⊢
    push_neg at hcut
    obtain ⟨hc1, hc2, hc3, hc4⟩ := hcut
    dsimp only at h ⊢
    split at h
    · rename_i c1 e heq
      simp at h
    · rename_i c1 u heq
      have hfst := congrArg Prod.fst heq
      dsimp only at hfst
      have hok1 : c1.strDirty = true := by
        rw [← hfst]
        refine forCells_ok_dirty _ _ _
          (fun x y st h' => copyStep_ok_dirty dx dy x y st h')
          (fun x y st h' => copyStep_dirty_pres dx dy x y st h')
          (shiftRange_ne_nil (by omega) (by omega))
          (shiftRange_ne_nil (by omega) (by omega)) c ?_
        rw [heq]
      split at h
      · rename_i c2 e2 heq2
        simp at h
      · rename_i c2 u2 heq2
        have hfst2 := congrArg Prod.fst heq2
        dsimp only at hfst2
        have hok2 : c2.strDirty = true := by
          rw [← hfst2]
          exact forCells_dirty_pres _ _ _
            (fun x y st h' => delitemTup_dirty_pres x y st h') c1 hok1
        exact forCells_dirty_pres _ _ _
          (fun x y st h' => delitemTup_dirty_pres x y st h') c2 hok2

theorem loadsLineLoop_dirty_pres (y : Int) :
    ∀ (line : List Char) (x : Nat) (c : CanvasState), c.strDirty = true →
      (loadsLineLoop y line x c).1.strDirty = true := by
  intro line
  induction line with
  | nil =>
    intro x c h
    exact h
  | cons v rest ih =>
    intro x c h
    unfold loadsLineLoop
    by_cases hb : (c.width : Int) ≤ (x : Int)
    · rw [if_pos hb]
      exact h
    · rw [if_neg hb]
      have hd := setitemTup_dirty_pres (x : Int) y (some (.pstr [v])) c h
      rcases hs : setitemTup (x : Int) y (some (.pstr [v])) c with ⟨c1, r⟩
      rw [hs] at hd
      rcases r with e | u
      · exact hd
      · exact ih (x + 1) c1 hd

theorem loadsLinesLoop_dirty_pres :
    ∀ (ls : List (List Char)) (y : Nat) (c : CanvasState), c.strDirty = true →
      (loadsLinesLoop ls y c).1.strDirty = true := by
  intro ls
  induction ls with
  | nil =>
    intro y c h
    exact h
  | cons line rest ih =>
    intro y c h
    unfold loadsLinesLoop
    have hd := loadsLineLoop_dirty_pres (y : Int) line 0 c h
    rcases hs : loadsLineLoop (y : Int) line 0 c with ⟨c1, r⟩
    rw [hs] at hd
    rcases r with e | u
    · exact hd
    · dsimp only
      by_cases hb : c1.height ≤ y + 1
      · rw [if_pos hb]
        exact hd
      · rw [if_neg hb]
        exact ih (y + 1) c1 hd

theorem loadsOp_first_char_dirty (t : List Char) (c : CanvasState)
    (v : Char) (vs : List Char) (rest : List (List Char))
    (hsplit : splitNl t = (v :: vs) :: rest)
    (hw : 1 ≤ c.width) (hh : 1 ≤ c.height) :
    (loadsOp t c).1.strDirty = true := by
  unfold loadsOp
  rw [hsplit]
  unfold loadsLinesLoop
  have hline : (loadsLineLoop ((0 : Nat) : Int) (v :: vs) 0 c).1.strDirty
      = true := by
    unfold loadsLineLoop
    rw [if_neg (by push_cast; omega),
      setitemTup_ok_char c 0 0 v (by omega) (by omega)]
    exact loadsLineLoop_dirty_pres _ vs 1 _ rfl
  rcases hs : loadsLineLoop ((0 : Nat) : Int) (v :: vs) 0 c with ⟨c1, r⟩
  rw [hs] at hline
  rcases r with e | u
  · exact hline
  · dsimp only
    by_cases hb : c1.height ≤ 0 + 1
    · rw [if_pos hb]
      exact hline
    · rw [if_neg hb]
      exact loadsLinesLoop_dirty_pres rest (0 + 1) c1 hline

theorem dirtyOrId_trans {c c1 c2 : CanvasState}
    (h1 : c1.strDirty = true ∨ c1 = c) (h2 : c2.strDirty = true ∨ c2 = c1)
    (hp : c1.strDirty = true → c2.strDirty = true) :
    c2.strDirty = true ∨ c2 = c := by
  rcases h2 with hd | hid
  · exact .inl hd
  · rcases h1 with hd | hid1
    · exact .inl (hid ▸ hp hd)
    · exact .inr (hid.trans hid1)

theorem setitemTup_dirtyOrId (kx ky : Int) (v : Option PyVal) (c : CanvasState) :
    (setitemTup kx ky v c).1.strDirty = true ∨ (setitemTup kx ky v c).1 = c := by
  rcases setitemTup_cases kx ky v c with ⟨e, hc⟩ | ⟨-, hd, -, -⟩
  · exact .inr (congrArg Prod.fst hc)
  · exact .inl hd

theorem delitemTup_dirtyOrId (kx ky : Int) (c : CanvasState) :
    (delitemTup kx ky c).1.strDirty = true ∨ (delitemTup kx ky c).1 = c := by
  rcases delitemTup_cases kx ky c with ⟨e, hc⟩ | ⟨-, hd, -, -⟩
  · exact .inr (congrArg Prod.fst hc)
  · exact .inl hd

theorem setitemSlice_dirtyOrId (k : SliceKey) (v : Option PyVal) (c : CanvasState) :
    (setitemSlice k v c).1.strDirty = true ∨ (setitemSlice k v c).1 = c := by
  rcases setitemSlice_cases k v c with hd | ⟨e, hc⟩
  · exact .inl hd
  · exact .inr (congrArg Prod.fst hc)

theorem forCells_dirtyOrId (xs ys : List Int)
    (f : Int → Int → CanvasState → CanvasState × Except PyErr Unit)
    (hf1 : ∀ x y st, (f x y st).1.strDirty = true ∨ (f x y st).1 = st)
    (hf2 : ∀ x y st, st.strDirty = true → (f x y st).1.strDirty = true)
    (c : CanvasState) :
    (forCells xs ys f c).1.strDirty = true ∨ (forCells xs ys f c).1 = c := by
  unfold forCells
  refine runSeq_dirtyOrId _ ?_ ?_ xs c
  · intro a st
    exact runSeq_dirtyOrId _ (fun b st' => hf1 a b st')
      (fun b st' => hf2 a b st') ys st
  · intro a st h'
    exact runSeq_dirty_pres _ (fun b st' => hf2 a b st') ys st h'

theorem fillOp_dirtyOrId (char : Option PyVal) (c : CanvasState) :
    (fillOp char c).1.strDirty = true ∨ (fillOp char c).1 = c := by
  unfold fillOp
  cases char with
  | none =>
    exact forCells_dirtyOrId _ _ _
      (fun x y st => setitemTup_dirtyOrId x y none st)
      (fun x y st h' => setitemTup_dirty_pres x y none st h') c
  | some v =>
    dsimp only
    by_cases hv : (pyStrOf v).length ≠ 1
    · rw [if_pos hv]
      exact .inr rfl
    · rw [if_neg hv]
      exact forCells_dirtyOrId _ _ _
        (fun x y st => setitemTup_dirtyOrId x y _ st)
        (fun x y st h' => setitemTup_dirty_pres x y _ st h') c

theorem clearOp_dirtyOrId (c : CanvasState) :
    (clearOp c).1.strDirty = true ∨ (clearOp c).1 = c := by
  unfold clearOp
  exact fillOp_dirtyOrId none c

theorem copyStep_dirtyOrId (dx dy x y : Int) (st : CanvasState) :
    (match getitemTup st x y with
     | Except.error e => (st, Except.error e)
     | Except.ok v => setitemTup (x + dx) (y + dy) v st).1.strDirty = true ∨
    (match getitemTup st x y with
     | Except.error e => (st, Except.error e)
     | Except.ok v => setitemTup (x + dx) (y + dy) v st).1 = st := by
  rcases hg : getitemTup st x y with e | v
  · exact .inr rfl
  · exact setitemTup_dirtyOrId _ _ v st

theorem shiftOp_dirtyOrId (dx dy : Int) (c : CanvasState) :
    (shiftOp dx dy c).1.strDirty = true ∨ (shiftOp dx dy c).1 = c := by
  unfold shiftOp
  by_cases hcut : dx ≥ (c.width : Int) ∨ dx ≤ -(c.width : Int) ∨
      dy ≥ (c.height : Int) ∨ dy ≤ -(c.height : Int)
  · rw [if_pos hcut]
    exact clearOp_dirtyOrId c
  · rw [if_neg hcut]
    dsimp only
    split
    · rename_i c1 e heq
      have hfst := congrArg Prod.fst heq
      dsimp only at hfst
      rw [← hfst]
      exact forCells_dirtyOrId _ _ _
        (fun x y st => copyStep_dirtyOrId dx dy x y st)
        (fun x y st h' => copyStep_dirty_pres dx dy x y st h') c
    · rename_i c1 u heq
      have hfst := congrArg Prod.fst heq
      dsimp only at hfst
      have h1 : c1.strDirty = true ∨ c1 = c := by
        rw [← hfst]
        exact forCells_dirtyOrId _ _ _
          (fun x y st => copyStep_dirtyOrId dx dy x y st)
          (fun x y st h' => copyStep_dirty_pres dx dy x y st h') c
      split
      · rename_i c2 e2 heq2
        have hfst2 := congrArg Prod.fst heq2
        dsimp only at hfst2
        have h2 : c2.strDirty = true ∨ c2 = c1 := by
          rw [← hfst2]
          exact forCells_dirtyOrId _ _ _
            (fun x y st => delitemTup_dirtyOrId x y st)
            (fun x y st h' => delitemTup_dirty_pres x y st h') c1
        exact dirtyOrId_trans h1 h2 (fun hd => by
          rw [← hfst2]
          exact forCells_dirty_pres _ _ _
            (fun x y st h' => delitemTup_dirty_pres x y st h') c1 hd)
      · rename_i c2 u2 heq2
        have hfst2 := congrArg Prod.fst heq2
        dsimp only at hfst2
        have h2 : c2.strDirty = true ∨ c2 = c1 := by
          rw [← hfst2]
          exact forCells_dirtyOrId _ _ _
            (fun x y st => delitemTup_dirtyOrId x y st)
            (fun x y st h' => delitemTup_dirty_pres x y st h') c1
        have h12 : c2.strDirty = true ∨ c2 = c :=
          dirtyOrId_trans h1 h2 (fun hd => by
            rw [← hfst2]
            exact forCells_dirty_pres _ _ _
              (fun x y st h' => delitemTup_dirty_pres x y st h') c1 hd)
        exact dirtyOrId_trans h12
          (forCells_dirtyOrId _ _ _
            (fun x y st => delitemTup_dirtyOrId x y st)
            (fun x y st h' => delitemTup_dirty_pres x y st h') c2)
          (fun hd => forCells_dirty_pres _ _ _
            (fun x y st h' => delitemTup_dirty_pres x y st h') c2 hd)

theorem loadsLineLoop_dirtyOrId (y : Int) :
    ∀ (line : List Char) (x : Nat) (c : CanvasState),
      (loadsLineLoop y line x c).1.strDirty = true ∨
      (loadsLineLoop y line x c).1 = c := by
  intro line
  induction line with
  | nil =>
    intro x c
    exact .inr rfl
  | cons v rest ih =>
    intro x c
    unfold loadsLineLoop
    by_cases hb : (c.width : Int) ≤ (x : Int)
    · rw [if_pos hb]
      exact .inr rfl
    · rw [if_neg hb]
      have h1 := setitemTup_dirtyOrId (x : Int) y (some (.pstr [v])) c
      rcases hs : setitemTup (x : Int) y (some (.pstr [v])) c with ⟨c1, r⟩
      rw [hs] at h1
      rcases r with e | u
      · exact h1
      · exact dirtyOrId_trans h1 (ih (x + 1) c1)
          (fun hd => loadsLineLoop_dirty_pres y rest (x + 1) c1 hd)

theorem loadsLinesLoop_dirtyOrId :
    ∀ (ls : List (List Char)) (y : Nat) (c : CanvasState),
      (loadsLinesLoop ls y c).1.strDirty = true ∨
      (loadsLinesLoop ls y c).1 = c := by
  intro ls
  induction ls with
  | nil =>
    intro y c
    exact .inr rfl
  | cons line rest ih =>
    intro y c
    unfold loadsLinesLoop
    have h1 := loadsLineLoop_dirtyOrId (y : Int) line 0 c
    rcases hs : loadsLineLoop (y : Int) line 0 c with ⟨c1, r⟩
    rw [hs] at h1
    rcases r with e | u
    · exact h1
    · dsimp only
      by_cases hb : c1.height ≤ y + 1
      · rw [if_pos hb]
        exact h1
      · rw [if_neg hb]
        exact dirtyOrId_trans h1 (ih (y + 1) c1)
          (fun hd => loadsLinesLoop_dirty_pres rest (y + 1) c1 hd)

theorem loadsOp_dirtyOrId (t : List Char) (c : CanvasState) :
    (loadsOp t c).1.strDirty = true ∨ (loadsOp t c).1 = c := by
  unfold loadsOp
  exact loadsLinesLoop_dirtyOrId (splitNl t) 0 c

theorem renderRowE_congr {c d : CanvasState} (hw : d.width = c.width)
    (hc : d.chars = c.chars) (y : Nat) : renderRowE d y = renderRowE c y := by
  unfold renderRowE
  rw [hw, hc]

theorem renderRowsE_congr {c d : CanvasState} (hw : d.width = c.width)
    (hc : d.chars = c.chars) : ∀ ys, renderRowsE d ys = renderRowsE c ys := by
  intro ys
  induction ys with
  | nil => rfl
  | cons a t ih =>
    unfold renderRowsE
    rw [ih, renderRowE_congr hw hc a]

theorem renderE_congr {c d : CanvasState} (hw : d.width = c.width)
    (hh : d.height = c.height) (hc : d.chars = c.chars) :
    renderE d = renderE c := by
  unfold renderE
  rw [hh, renderRowsE_congr hw hc]

theorem strOp_cacheOK (c : CanvasState) (h : CacheOK c) : CacheOK (strOp c).1 := by
  unfold strOp
  by_cases hd : c.strDirty = false
  · rw [if_pos hd]
    exact h
  · rw [if_neg hd]
    rcases hr : renderE c with e | txt
    · exact h
    · dsimp only
      intro _
      refine ⟨txt, ?_, rfl⟩
      rw [renderE_congr (c := c)
        (d := { c with strDirty := false, strCache := some txt }) rfl rfl rfl]
      exact hr

theorem cacheOK_of_dirtyOrId {c c' : CanvasState} (h : CacheOK c)
    (hd : c'.strDirty = true ∨ c' = c) : CacheOK c' := by
  rcases hd with hd | rfl
  · intro hf
    rw [hd] at hf
    cases hf
  · exact h

theorem applyOp_cacheOK (c : CanvasState) (op : Op) (h : CacheOK c) :
    CacheOK (applyOp c op) := by
  cases op with
  | setT x y v => exact cacheOK_of_dirtyOrId h (setitemTup_dirtyOrId x y v c)
  | setS k v => exact cacheOK_of_dirtyOrId h (setitemSlice_dirtyOrId k v c)
  | delT x y => exact cacheOK_of_dirtyOrId h (delitemTup_dirtyOrId x y c)
  | delS k => exact cacheOK_of_dirtyOrId h (.inl (delitemSlice_dirty k c))
  | fill v => exact cacheOK_of_dirtyOrId h (fillOp_dirtyOrId v c)
  | clear => exact cacheOK_of_dirtyOrId h (clearOp_dirtyOrId c)
  | shift dx dy => exact cacheOK_of_dirtyOrId h (shiftOp_dirtyOrId dx dy c)
  | loads t => exact cacheOK_of_dirtyOrId h (loadsOp_dirtyOrId t c)
  | render => exact strOp_cacheOK c h

theorem runOps_cacheOK (ops : List Op) :
    ∀ (c : CanvasState), CacheOK c → CacheOK (runOps c ops) := by
  induction ops with
  | nil =>
    intro c h
    exact h
  | cons op rest ih =>
    intro c h
    exact ih (applyOp c op) (applyOp_cacheOK c op h)

theorem initCanvas_cacheOK (w h : Nat) : CacheOK (initCanvas w h) :=
  fun hf => Bool.noConfusion hf

/-- C6 (amended): the cache-consistency invariant holds along every
operation sequence from a fresh canvas — whenever the dirty flag is
false, the cache holds exactly a fresh render of the current cells.  The
mutators set the flag before returning successfully: tuple-key and
slice-key `set`, tuple-key `delete` on success, slice-key `delete`
always, and `fill`/`clear`/`shift` on success when the dimensions are
positive.  `loads` sets it whenever the content's first line is nonempty
(so at least one cell is written); `loads` of contents with no writable
character — e.g. the empty string — is the exception the original claim
misses. -/
theorem C6_cache_invariant :
    (∀ (w h : Nat) (ops : List Op), CacheOK (runOps (initCanvas w h) ops)) ∧
    (∀ (c : CanvasState) (kx ky : Int) (v : Option PyVal),
      (setitemTup kx ky v c).2 = .ok () →
      (setitemTup kx ky v c).1.strDirty = true) ∧
    (∀ (c : CanvasState) (kx ky : Int),
      (delitemTup kx ky c).2 = .ok () →
      (delitemTup kx ky c).1.strDirty = true) ∧
    (∀ (c : CanvasState) (k : SliceKey) (v : Option PyVal),
      (setitemSlice k v c).2 = .ok () →
      (setitemSlice k v c).1.strDirty = true) ∧
    (∀ (c : CanvasState) (k : SliceKey),
      (delitemSlice k c).1.strDirty = true) ∧
    (∀ (c : CanvasState) (v : Option PyVal), 1 ≤ c.width → 1 ≤ c.height →
      (fillOp v c).2 = .ok () → (fillOp v c).1.strDirty = true) ∧
    (∀ (c : CanvasState), 1 ≤ c.width → 1 ≤ c.height →
      (clearOp c).2 = .ok () → (clearOp c).1.strDirty = true) ∧
    (∀ (c : CanvasState) (dx dy : Int), 1 ≤ c.width → 1 ≤ c.height →
      (shiftOp dx dy c).2 = .ok () → (shiftOp dx dy c).1.strDirty = true) ∧
    (∀ (c : CanvasState) (t : List Char) (v : Char) (vs : List Char)
        (rest : List (List Char)), splitNl t = (v :: vs) :: rest →
      1 ≤ c.width → 1 ≤ c.height → (loadsOp t c).1.strDirty = true) := by
  refine ⟨?_, ?_, ?_, ?_, ?_, ?_, ?_, ?_, ?_⟩
  · intro w h ops
    exact runOps_cacheOK ops (initCanvas w h) (initCanvas_cacheOK w h)
  · intro c kx ky v h
    exact setitemTup_ok_dirty kx ky v c h
  · intro c kx ky h
    exact delitemTup_ok_dirty kx ky c h
  · intro c k v h
    rcases setitemSlice_cases k v c with hd | ⟨e, hc⟩
    · exact hd
    · rw [hc] at h
      cases h
  · intro c k
    exact delitemSlice_dirty k c
  · intro c v hw hh h
    exact fillOp_ok_dirty v c hw hh h
  · intro c hw hh h
    exact clearOp_ok_dirty c hw hh h
  · intro c dx dy hw hh h
    exact shiftOp_ok_dirty dx dy c hw hh h
  · intro c t v vs rest hs hw hh
    exact loadsOp_first_char_dirty t c v vs rest hs hw hh

/-- Concrete instantiation of the C6 invariant theorem on a 2-by-2
canvas: one run through the invariant and each mutator's dirty-flag
conclusion, with every hypothesis discharged by evaluation. -/
theorem C6_cache_invariant_witness :
    CacheOK (runOps (initCanvas 2 2)
      [Op.setT 0 0 (some (PyVal.pstr ['x'])), Op.render]) ∧
    (setitemTup 0 0 (some (PyVal.pstr ['x'])) (initCanvas 2 2)).1.strDirty
      = true ∧
    (delitemTup 0 0 (initCanvas 2 2)).1.strDirty = true ∧
    (setitemSlice ⟨some (0, 0), some (1, 1), none⟩
      (some (PyVal.pstr ['x'])) (initCanvas 2 2)).1.strDirty = true ∧
    (delitemSlice ⟨some (0, 0), some (1, 1), none⟩
      (initCanvas 2 2)).1.strDirty = true ∧
    (fillOp (some (PyVal.pstr ['x'])) (initCanvas 2 2)).1.strDirty = true ∧
    (clearOp (initCanvas 2 2)).1.strDirty = true ∧
    (shiftOp 1 0 (initCanvas 2 2)).1.strDirty = true ∧
    (loadsOp ['a', 'b'] (initCanvas 2 2)).1.strDirty = true :=
  ⟨C6_cache_invariant.1 2 2 _,
   C6_cache_invariant.2.1 (initCanvas 2 2) 0 0 _ (by decide),
   C6_cache_invariant.2.2.1 (initCanvas 2 2) 0 0 (by decide),
   C6_cache_invariant.2.2.2.1 (initCanvas 2 2) _ _ (by decide),
   C6_cache_invariant.2.2.2.2.1 (initCanvas 2 2) _,
   C6_cache_invariant.2.2.2.2.2.1 (initCanvas 2 2) _
     (by decide) (by decide) (by decide),
   C6_cache_invariant.2.2.2.2.2.2.1 (initCanvas 2 2)
     (by decide) (by decide) (by decide),
   C6_cache_invariant.2.2.2.2.2.2.2.1 (initCanvas 2 2) 1 0
     (by decide) (by decide) (by decide),
   C6_cache_invariant.2.2.2.2.2.2.2.2 (initCanvas 2 2) ['a', 'b'] 'a' ['b'] []
     (by decide) (by decide) (by decide)⟩

end PyTextCanvas
